import Mathlib

/-!
Verification of the Outlook→Google calendar synchronization core
(`src/outlook2gcal.py`): the reconciliation ledger (`SyncMonitor`) and the
per-cycle synchronization state machine (`sync_events`), shallowly embedded
over explicit ledger states with the remote calendar modelled as an oracle.
-/

namespace Outlook2GCal

/-- Timestamps, in seconds (datetime values are abstracted to integers). -/
abbrev Time := Int

/-- A stored date string as seen by `datetime.fromisoformat`: either it parses
to a timestamp, or it is unparseable text. -/
inductive DateStr where
  | valid (t : Time)
  | invalid
deriving DecidableEq, Repr

/-- `datetime.fromisoformat(info.get('synced_date', ''))`: a missing key gives
`''` which fails to parse, so both a missing and an unparseable value yield
`none`. -/
def parseDate : Option DateStr → Option Time
  | some (.valid t) => some t
  | _ => none

/-- One value of the `synced_events` dict: the fields written by
`mark_synced` / `update_event_id`, each optional because old-format entries
may lack any of them (`event_info.get(...)` semantics). -/
structure EventInfo where
  synced_date : Option DateStr := none
  event_date : Option String := none
  title : Option String := none
  google_event_id : Option String := none
deriving DecidableEq, Repr

/-- The fields of an extracted Outlook event that the sync core reads:
`event['id']`, `event['title']`, `event['start_date'].isoformat()` and
`event['organizer']`. -/
structure Event where
  id : String
  title : String
  start_iso : String
  organizer : String
deriving DecidableEq, Repr

/-- `SyncMonitor.synced_events`, a Python dict modelled as an association
list with insertion order (keys unique in any state reachable from a dict). -/
abbrev Ledger := List (String × EventInfo)

def keysOf (l : Ledger) : List String := l.map Prod.fst

/-- `event_id in self.synced_events`. -/
def containsKey (l : Ledger) (k : String) : Bool := l.any (fun kv => kv.1 == k)

/-- `self.synced_events[event_id]` (as an option). -/
def lookup (l : Ledger) (k : String) : Option EventInfo :=
  (l.find? (fun kv => kv.1 == k)).map Prod.snd

/-- `del self.synced_events[event_id]`. -/
def eraseKey (l : Ledger) (k : String) : Ledger := l.filter (fun kv => kv.1 != k)

/-- `self.synced_events[k] = v`: replace in place when the key is present,
append otherwise (Python dict assignment keeps the key's position). -/
def insertKey (l : Ledger) (k : String) (v : EventInfo) : Ledger :=
  if containsKey l k then l.map (fun kv => if kv.1 == k then (k, v) else kv)
  else l ++ [(k, v)]

/-- `hash_input = f'{parts[0]}-{start_date.isoformat()}-{organizer_part}'`
(OutlookReader.get_events, line 173). -/
def hash_input (title start_iso organizer : String) : String :=
  title ++ "-" ++ start_iso ++ "-" ++ organizer

/-- `unique_id = f"outlook-{hashlib.md5(hash_input.encode()).hexdigest()[:16]}"`
(line 174); the MD5 hex digest is an external library function, abstracted as
the parameter `md5hex`. -/
def unique_id (md5hex : String → String) (title start_iso organizer : String) : String :=
  "outlook-" ++ (md5hex (hash_input title start_iso organizer)).take 16

/-- `old_id.startswith('outlook--') and old_id[9:].lstrip('-').isdigit()`
(lines 441, 500): Python's `''.isdigit()` is `False`, hence the non-emptiness
conjunct; `startswith` is "the first 9 characters are `outlook--`". -/
def isOldStyleId (s : String) : Bool :=
  decide (s.toList.take 9 = "outlook--".toList) &&
    (let t := (s.toList.drop 9).dropWhile (fun c => c == '-')
     !t.isEmpty && t.all (fun c => c.isDigit))

/-- Python `str.strip()`: drop leading and trailing whitespace. -/
def pyStrip (s : String) : String :=
  String.mk (((s.toList.dropWhile Char.isWhitespace).reverse.dropWhile
    Char.isWhitespace).reverse)

/-- `SyncMonitor.is_synced`. -/
def is_synced (l : Ledger) (e : Event) : Bool := containsKey l e.id

/-- `SyncMonitor.find_matching_old_event`: first ledger entry (in insertion
order) with an old-style key whose stored title (stripped) and event date
equal the event's. -/
def find_matching_old_event (l : Ledger) (e : Event) : Option String :=
  (l.find? (fun kv =>
      isOldStyleId kv.1 &&
      pyStrip (kv.2.title.getD "") == pyStrip e.title &&
      kv.2.event_date.getD "" == e.start_iso)).map Prod.fst

/-- `SyncMonitor.update_event_id`: copy the old entry's data, overwrite
`synced_date`/`event_date`/`title`, add it under the new id, delete the old
key. -/
def update_event_id (l : Ledger) (old_id new_id : String) (e : Event) (now : Time) : Ledger :=
  if containsKey l old_id then
    let old_data := (lookup l old_id).getD {}
    let new_data := { old_data with
      synced_date := some (.valid now),
      event_date := some e.start_iso,
      title := some e.title }
    eraseKey (insertKey l new_id new_data) old_id
  else l

/-- `SyncMonitor.mark_synced`. -/
def mark_synced (l : Ledger) (e : Event) (gid : Option String) (now : Time) : Ledger :=
  insertKey l e.id
    { synced_date := some (.valid now),
      event_date := some e.start_iso,
      title := some e.title,
      google_event_id := gid }

/-- `SyncMonitor.cleanup_old_events`: collect the keys whose `synced_date`
is missing/unparseable or parses to a time before `now - 60 days`, then
delete each collected key. -/
def cleanup_old_events (now : Time) (l : Ledger) : Ledger :=
  let cutoff := now - 60 * 86400
  let old_events := (l.filter (fun kv =>
      match parseDate kv.2.synced_date with
      | some d => decide (d < cutoff)
      | none => true)).map Prod.fst
  old_events.foldl eraseKey l

/-- `SyncMonitor.migrate_old_ids`: builds `migrated_events` (the non-old-style
entries) and counts old-style keys, but never assigns either back to
`self.synced_events`; the state is returned unchanged. -/
def migrate_old_ids (l : Ledger) : Ledger :=
  let migrated_events := l.filter (fun kv => !isOldStyleId kv.1)
  let migration_count := (l.filter (fun kv => isOldStyleId kv.1)).length
  l

/-- The persisted `sync_state.json` as `SyncMonitor.load_state` can observe
it: absent, raising on read/parse (IO error, corrupt JSON, wrong shape), the
old flat-list format, or the current dict format. -/
inductive PersistedState where
  | missing
  | unreadable
  | listFormat (ids : List String)
  | dictFormat (m : Ledger)

/-- The old-format upgrade
`{event_id: {'synced_date': datetime.now().isoformat()} for event_id in ...}`. -/
def upgradeList (now : Time) (ids : List String) : Ledger :=
  ids.foldl (fun acc i => insertKey acc i { synced_date := some (.valid now) }) []

/-- `SyncMonitor.load_state`: missing file leaves the `__init__` empty dict;
any exception degrades to an empty dict; a flat list is upgraded in memory;
then `migrate_old_ids` and `cleanup_old_events` run. -/
def load_state (now : Time) (ps : PersistedState) : Ledger :=
  match ps with
  | .missing => []
  | .unreadable => []
  | .listFormat ids => cleanup_old_events now (migrate_old_ids (upgradeList now ids))
  | .dictFormat m => cleanup_old_events now (migrate_old_ids m)

/-- Outcome of the HTTP DELETE issued by `GoogleSync.delete_event`. -/
inductive DelResp where
  | ok
  | notFound
  | err
deriving DecidableEq, Repr

/-- `GoogleSync.delete_event`: success on 2xx, success on 404 ("event already
deleted"), failure otherwise. -/
def delete_event : DelResp → Bool
  | .ok => true
  | .notFound => true
  | .err => false

/-- The remote calendar as an oracle for one cycle: results of
`check_event_exists`, `create_event` (None = HttpError) and the HTTP response
to a delete. -/
structure Remote where
  check_event_exists : Event → Option String
  create_event : Event → Option String
  delete_response : String → DelResp

/-- State threaded through the classification loop of `sync_events`
(lines 648-667), plus bookkeeping of what was done. -/
structure Phase1State where
  ledger : Ledger
  new_events : List Event
  checks : List Event
  skipped : List Event
  migrations : List (String × Event)
deriving DecidableEq, Repr

/-- One iteration of the classification loop: already-synced events are
skipped; a matching old-style entry is migrated (no remote call); otherwise
`check_event_exists` is called and the event is either marked synced with the
found id or queued in `new_events`. -/
def classify (now : Time) (g : Remote) (st : Phase1State) (e : Event) : Phase1State :=
  if is_synced st.ledger e then { st with skipped := st.skipped ++ [e] }
  else
    match find_matching_old_event st.ledger e with
    | some old_id =>
        { st with ledger := update_event_id st.ledger old_id e.id e now,
                  migrations := st.migrations ++ [(old_id, e)] }
    | none =>
        match g.check_event_exists e with
        | some gid =>
            { st with ledger := mark_synced st.ledger e (some gid) now,
                      checks := st.checks ++ [e] }
        | none =>
            { st with new_events := st.new_events ++ [e],
                      checks := st.checks ++ [e] }

/-- The whole classification pass over the snapshot. -/
def phase1 (now : Time) (g : Remote) (l : Ledger) (events : List Event) : Phase1State :=
  events.foldl (classify now g) ⟨l, [], [], [], []⟩

/-- One iteration of the creation loop (lines 671-679): call `create_event`;
mark the event synced on success, leave the ledger untouched on failure; the
result of every call is recorded. -/
def createStep (now : Time) (g : Remote) (acc : Ledger × List (Event × Option String))
    (e : Event) : Ledger × List (Event × Option String) :=
  match g.create_event e with
  | some gid => (mark_synced acc.1 e (some gid) now, acc.2 ++ [(e, some gid)])
  | none => (acc.1, acc.2 ++ [(e, none)])

/-- The creation loop (lines 669-681): one `create_event` call per queued
event; the loop never aborts. Returns the ledger and the (event, result)
calls. -/
def applyCreates (now : Time) (g : Remote) (l : Ledger) (new_events : List Event) :
    Ledger × List (Event × Option String) :=
  new_events.foldl (createStep now g) (l, [])

/-- One iteration of the deletion loop (lines 692-706): look up the
candidate's current info (`.get(event_id, {})`); with a google id, delete
remotely and remove the entry on success (keep it on failure); without one,
just remove the entry with no remote call. -/
def deleteStep (g : Remote) (acc : Ledger × List (String × Bool)) (k : String) :
    Ledger × List (String × Bool) :=
  let info := (lookup acc.1 k).getD {}
  match info.google_event_id with
  | some gid =>
      if delete_event (g.delete_response gid) then (eraseKey acc.1 k, acc.2 ++ [(gid, true)])
      else (acc.1, acc.2 ++ [(gid, false)])
  | none => (eraseKey acc.1 k, acc.2)

/-- The deletion loop (lines 690-706) over the deletion candidates. Returns
the ledger and the list of (google id, outcome) remote delete calls. -/
def deletePass (g : Remote) (l : Ledger) (cands : List String) :
    Ledger × List (String × Bool) :=
  cands.foldl (deleteStep g) (l, [])

/-- Everything one `sync_events` call did: the final ledger plus the recorded
classification outcomes and remote calls. -/
structure CycleResult where
  ledger : Ledger
  new_events : List Event
  checks : List Event
  skipped : List Event
  migrations : List (String × Event)
  create_results : List (Event × Option String)
  candidates : List String
  delete_calls : List (String × Bool)
deriving DecidableEq, Repr

/-- One sync cycle (`sync_events`, lines 619-708): classification pass,
creation pass, then deletion detection
`deleted_event_ids = synced_event_ids - current_event_ids` (a set: keys
deduplicated) and the deletion pass. -/
def sync_events (now : Time) (g : Remote) (events : List Event) (l0 : Ledger) : CycleResult :=
  let st := phase1 now g l0 events
  let ac := applyCreates now g st.ledger st.new_events
  let current_ids := events.map (fun e => e.id)
  let cands := (keysOf ac.1).dedup.filter (fun k => !current_ids.contains k)
  let dp := deletePass g ac.1 cands
  { ledger := dp.1,
    new_events := st.new_events,
    checks := st.checks,
    skipped := st.skipped,
    migrations := st.migrations,
    create_results := ac.2,
    candidates := cands,
    delete_calls := dp.2 }

/-! ### Basic lemmas about the dict model -/

lemma containsKey_iff (l : Ledger) (k : String) :
    containsKey l k = true ↔ k ∈ keysOf l := by
  simp [containsKey, keysOf, List.any_eq_true, List.mem_map]

lemma containsKey_eq_false_iff (l : Ledger) (k : String) :
    containsKey l k = false ↔ k ∉ keysOf l := by
  rw [Bool.eq_false_iff, ne_eq, containsKey_iff]

lemma lookup_cons (kv : String × EventInfo) (t : Ledger) (k : String) :
    lookup (kv :: t) k = if kv.1 = k then some kv.2 else lookup t k := by
  by_cases h : kv.1 = k
  · have hb : (kv.1 == k) = true := by simp [h]
    simp [lookup, List.find?, hb, h]
  · have hb : (kv.1 == k) = false := by simp [h]
    simp [lookup, List.find?, hb, h]

lemma mem_eraseKey (l : Ledger) (k : String) (kv : String × EventInfo) :
    kv ∈ eraseKey l k ↔ kv ∈ l ∧ kv.1 ≠ k := by
  simp [eraseKey, List.mem_filter]

lemma mem_keysOf_eraseKey (l : Ledger) (k k' : String) :
    k' ∈ keysOf (eraseKey l k) ↔ k' ∈ keysOf l ∧ k' ≠ k := by
  simp only [keysOf, List.mem_map]
  constructor
  · rintro ⟨kv, hm, rfl⟩
    rcases (mem_eraseKey l k kv).mp hm with ⟨h1, h2⟩
    exact ⟨⟨kv, h1, rfl⟩, h2⟩
  · rintro ⟨⟨kv, hm, rfl⟩, hne⟩
    exact ⟨kv, (mem_eraseKey l k kv).mpr ⟨hm, hne⟩, rfl⟩

lemma lookup_eraseKey_ne (l : Ledger) (k k' : String) (h : k' ≠ k) :
    lookup (eraseKey l k) k' = lookup l k' := by
  induction l with
  | nil => rfl
  | cons kv t ih =>
    by_cases hk : kv.1 = k
    · have : eraseKey (kv :: t) k = eraseKey t k := by
        simp [eraseKey, hk]
      rw [this, ih, lookup_cons, if_neg (by rw [hk]; exact fun he => h he.symm)]
    · have : eraseKey (kv :: t) k = kv :: eraseKey t k := by
        simp [eraseKey, hk]
      rw [this, lookup_cons, lookup_cons, ih]

lemma containsKey_eraseKey_self (l : Ledger) (k : String) :
    containsKey (eraseKey l k) k = false := by
  rw [containsKey_eq_false_iff]
  intro h
  exact ((mem_keysOf_eraseKey l k k).mp h).2 rfl

lemma lookup_map_replace (l : Ledger) (k k' : String) (v : EventInfo) (h : k' ≠ k) :
    lookup (l.map (fun kv => if kv.1 == k then (k, v) else kv)) k' = lookup l k' := by
  induction l with
  | nil => rfl
  | cons kv t ih =>
    by_cases hk : kv.1 = k
    · have hb : (kv.1 == k) = true := by simp [hk]
      simp only [List.map_cons, hb, if_true]
      rw [lookup_cons, lookup_cons, if_neg (Ne.symm h),
        if_neg (hk ▸ Ne.symm h), ih]
    · have hb : (kv.1 == k) = false := by simp [hk]
      simp only [List.map_cons, hb, Bool.false_eq_true, if_false]
      rw [lookup_cons, lookup_cons, ih]

lemma lookup_append_single_ne (l : Ledger) (k k' : String) (v : EventInfo) (h : k' ≠ k) :
    lookup (l ++ [(k, v)]) k' = lookup l k' := by
  induction l with
  | nil =>
    have hb : (k == k') = false := by simp [Ne.symm h]
    simp [lookup, List.find?, hb]
  | cons kv t ih =>
    rw [List.cons_append, lookup_cons, lookup_cons, ih]

lemma lookup_insertKey_ne (l : Ledger) (k k' : String) (v : EventInfo) (h : k' ≠ k) :
    lookup (insertKey l k v) k' = lookup l k' := by
  unfold insertKey
  split
  · exact lookup_map_replace l k k' v h
  · exact lookup_append_single_ne l k k' v h

lemma lookup_map_replace_self (l : Ledger) (k : String) (v : EventInfo)
    (hc : containsKey l k = true) :
    lookup (l.map (fun kv => if kv.1 == k then (k, v) else kv)) k = some v := by
  induction l with
  | nil => simp [containsKey] at hc
  | cons kv t ih =>
    by_cases hk : kv.1 = k
    · have hb : (kv.1 == k) = true := by simp [hk]
      simp only [List.map_cons, hb, if_true]
      rw [lookup_cons, if_pos rfl]
    · have hb : (kv.1 == k) = false := by simp [hk]
      simp only [List.map_cons, hb, Bool.false_eq_true, if_false]
      rw [lookup_cons, if_neg hk]
      apply ih
      simp only [containsKey, List.any_cons, Bool.or_eq_true] at hc
      rcases hc with hc | hc
      · rw [beq_iff_eq] at hc; exact absurd hc hk
      · simpa [containsKey] using hc

lemma lookup_append_single_self (l : Ledger) (k : String) (v : EventInfo)
    (hc : containsKey l k = false) :
    lookup (l ++ [(k, v)]) k = some v := by
  induction l with
  | nil =>
    have hb : (k == k) = true := by simp
    simp [lookup, List.find?, hb]
  | cons kv t ih =>
    simp only [containsKey, List.any_cons, Bool.or_eq_false_iff] at hc
    have hk : ¬kv.1 = k := by
      intro h
      rw [beq_iff_eq.symm] at h
      simp [h] at hc
    rw [List.cons_append, lookup_cons, if_neg hk]
    apply ih
    simpa [containsKey] using hc.2

lemma lookup_insertKey_self (l : Ledger) (k : String) (v : EventInfo) :
    lookup (insertKey l k v) k = some v := by
  unfold insertKey
  split
  next hc => exact lookup_map_replace_self l k v hc
  next hc => exact lookup_append_single_self l k v (Bool.not_eq_true _ ▸ eq_false_of_ne_true hc)

lemma keysOf_map_replace (l : Ledger) (k : String) (v : EventInfo) :
    keysOf (l.map (fun kv => if kv.1 == k then (k, v) else kv)) = keysOf l := by
  induction l with
  | nil => rfl
  | cons kv t ih =>
    by_cases hk : kv.1 = k
    · have hb : (kv.1 == k) = true := by simp [hk]
      simp only [keysOf, List.map_cons, hb, if_true] at ih ⊢
      rw [ih]
      simp [hk]
    · have hb : (kv.1 == k) = false := by simp [hk]
      simp only [keysOf, List.map_cons, hb, Bool.false_eq_true, if_false] at ih ⊢
      rw [ih]

lemma mem_keysOf_insertKey (l : Ledger) (k k' : String) (v : EventInfo) :
    k' ∈ keysOf (insertKey l k v) ↔ k' ∈ keysOf l ∨ k' = k := by
  unfold insertKey
  split
  next hc =>
    rw [keysOf_map_replace]
    constructor
    · exact Or.inl
    · rintro (h | rfl)
      · exact h
      · exact (containsKey_iff l k').mp hc
  next =>
    simp [keysOf, List.map_append, List.mem_append]

lemma mem_insertKey (l : Ledger) (k : String) (v : EventInfo) (kv : String × EventInfo) :
    kv ∈ insertKey l k v → kv ∈ l ∨ kv.1 = k := by
  unfold insertKey
  split
  · intro h
    rcases List.mem_map.mp h with ⟨kv0, hm0, heq⟩
    by_cases hk : kv0.1 = k
    · have hb : (kv0.1 == k) = true := by simp [hk]
      right; rw [← heq]; simp [hb]
    · have hb : (kv0.1 == k) = false := by simp [hk]
      left; rw [← heq]; simp only [hb, Bool.false_eq_true, if_false]; exact hm0
  · intro h
    rcases List.mem_append.mp h with h | h
    · exact Or.inl h
    · right
      rw [List.mem_singleton] at h
      rw [h]

lemma mem_foldl_eraseKey (ks : List String) (l : Ledger) (kv : String × EventInfo) :
    kv ∈ ks.foldl eraseKey l ↔ kv ∈ l ∧ kv.1 ∉ ks := by
  induction ks generalizing l with
  | nil => simp
  | cons k t ih =>
    rw [List.foldl_cons, ih, mem_eraseKey]
    simp only [List.mem_cons]
    tauto

lemma cleanup_mem_good (now : Time) (l : Ledger) (kv : String × EventInfo)
    (hm : kv ∈ cleanup_old_events now l) :
    kv ∈ l ∧ ∃ t, parseDate kv.2.synced_date = some t ∧ ¬t < now - 60 * 86400 := by
  unfold cleanup_old_events at hm
  rw [mem_foldl_eraseKey] at hm
  obtain ⟨hl, hk⟩ := hm
  refine ⟨hl, ?_⟩
  by_contra hbad
  push_neg at hbad
  apply hk
  refine List.mem_map.mpr ⟨kv, List.mem_filter.mpr ⟨hl, ?_⟩, rfl⟩
  cases hp : parseDate kv.2.synced_date with
  | none => simp [hp]
  | some t =>
    have ht := hbad t hp
    simpa [hp] using ht

lemma cleanup_removes_bad (now : Time) (l : Ledger) (kv : String × EventInfo)
    (hm : kv ∈ l) (hbad : parseDate kv.2.synced_date = none) :
    containsKey (cleanup_old_events now l) kv.1 = false := by
  rw [containsKey_eq_false_iff]
  intro hk
  simp only [keysOf, List.mem_map] at hk
  obtain ⟨kv', hm', he⟩ := hk
  unfold cleanup_old_events at hm'
  rw [mem_foldl_eraseKey] at hm'
  apply hm'.2
  rw [he]
  exact List.mem_map.mpr ⟨kv, List.mem_filter.mpr ⟨hm, by simp [hbad]⟩, rfl⟩

lemma upgradeList_lookup_aux (v : EventInfo) (k : String) (ids : List String) :
    ∀ acc : Ledger, (k ∈ ids ∨ lookup acc k = some v) →
      lookup (ids.foldl (fun a i => insertKey a i v) acc) k = some v := by
  induction ids with
  | nil =>
    intro acc h
    rcases h with h | h
    · simp at h
    · simpa using h
  | cons i t ih =>
    intro acc h
    rw [List.foldl_cons]
    apply ih
    rcases h with h | h
    · rcases List.mem_cons.mp h with rfl | h
      · right; exact lookup_insertKey_self acc k v
      · left; exact h
    · by_cases hk : k = i
      · subst hk; right; exact lookup_insertKey_self acc k v
      · right; rw [lookup_insertKey_ne acc i k v hk]; exact h

lemma upgradeList_keys_aux (v : EventInfo) (k : String) (ids : List String) :
    ∀ acc : Ledger, (k ∈ keysOf (ids.foldl (fun a i => insertKey a i v) acc) ↔
      k ∈ keysOf acc ∨ k ∈ ids) := by
  induction ids with
  | nil => intro acc; simp
  | cons i t ih =>
    intro acc
    rw [List.foldl_cons, ih, mem_keysOf_insertKey]
    simp only [List.mem_cons]
    tauto

/-! ### Claim theorems: ledger maintenance (C9, C10, C3, C7) -/

/-- C9: `SyncMonitor.migrate_old_ids` never modifies the ledger — it builds
`migrated_events` and a count but never assigns them back, so the
`synced_events` mapping after the call equals the mapping before it, and
old-scheme entries remain under their old keys. -/
theorem migrate_old_ids_noop (l : Ledger) : migrate_old_ids l = l := rfl

/-- C10: after `cleanup_old_events` runs (and `load_state` on a well-formed
file is exactly `cleanup_old_events` composed with the no-op migration),
every remaining entry has a `synced_date` that parses and is at most 60 days
older than `now`; any entry whose `synced_date` is missing or unparseable is
gone — its key included — no matter what other fields (such as
`google_event_id`) it holds. -/
theorem cleanup_old_events_spec (now : Time) (l : Ledger) :
    (∀ kv ∈ cleanup_old_events now l,
      ∃ t, parseDate kv.2.synced_date = some t ∧ now - t ≤ 60 * 86400)
    ∧ (∀ kv ∈ l, parseDate kv.2.synced_date = none →
      containsKey (cleanup_old_events now l) kv.1 = false)
    ∧ load_state now (.dictFormat l) = cleanup_old_events now l := by
  refine ⟨?_, ?_, rfl⟩
  · intro kv hm
    obtain ⟨-, t, hp, ht⟩ := cleanup_mem_good now l kv hm
    exact ⟨t, hp, by linarith [not_lt.mp ht]⟩
  · intro kv hm hbad
    exact cleanup_removes_bad now l kv hm hbad

/-- Witness for C10: a fresh entry survives cleanup with a parseable,
in-window date; an undated entry that still holds a remote id is removed. -/
theorem cleanup_old_events_spec_witness :
    (("k", ({ synced_date := some (.valid 50) } : EventInfo)) ∈
        cleanup_old_events 100 [("k", { synced_date := some (.valid 50) })]
      ∧ (∃ t, parseDate (some (DateStr.valid 50)) = some t ∧ (100 : Int) - t ≤ 60 * 86400))
    ∧ (("b", ({ google_event_id := some "g" } : EventInfo)) ∈
        ([("b", { google_event_id := some "g" })] : Ledger)
      ∧ containsKey (cleanup_old_events 100 [("b", { google_event_id := some "g" })]) "b"
          = false) := by
  refine ⟨⟨by decide, ?_⟩, by decide, ?_⟩
  · exact (cleanup_old_events_spec 100 [("k", { synced_date := some (.valid 50) })]).1
      ("k", { synced_date := some (.valid 50) }) (by decide)
  · exact (cleanup_old_events_spec 100 [("b", { google_event_id := some "g" })]).2.1
      ("b", { google_event_id := some "g" }) (by decide) rfl

/-- C3 counterexample: `sync_events` performs no age pruning. A ledger entry
synced at time 0, examined 120 days later, survives a full sync cycle when the
remote delete fails — contradicting "no entry older than 60 days remains
after any cycle, regardless of remote state and deletion outcomes". -/
theorem sync_events_no_pruning_cex :
    containsKey (sync_events (120 * 86400)
      { check_event_exists := fun _ => none,
        create_event := fun _ => none,
        delete_response := fun _ => .err }
      []
      [("outlook-k", { synced_date := some (.valid 0), google_event_id := some "g" })]).ledger
      "outlook-k" = true := by decide

/-- C3 (amended): age pruning runs in `load_state` (process start), not in
`sync_events`; after any `load_state`, no entry whose `syncedAt` parses to
more than 60 days in the past remains, regardless of the persisted state. -/
theorem load_state_prunes (now : Time) (ps : PersistedState) (kv : String × EventInfo)
    (hm : kv ∈ load_state now ps) (t : Time) (ht : parseDate kv.2.synced_date = some t) :
    now - t ≤ 60 * 86400 := by
  cases ps with
  | missing => simp [load_state] at hm
  | unreadable => simp [load_state] at hm
  | listFormat ids =>
    obtain ⟨-, t', hp, hlt⟩ := cleanup_mem_good now _ kv hm
    rw [ht] at hp
    obtain rfl := Option.some_injective _ hp
    linarith [not_lt.mp hlt]
  | dictFormat m =>
    obtain ⟨-, t', hp, hlt⟩ := cleanup_mem_good now _ kv hm
    rw [ht] at hp
    obtain rfl := Option.some_injective _ hp
    linarith [not_lt.mp hlt]

/-- Witness for C3 (amended): a 10-day-old entry survives load and is within
the window. -/
theorem load_state_prunes_witness :
    (("k", ({ synced_date := some (.valid 90) } : EventInfo)) ∈
        load_state 100 (.dictFormat [("k", { synced_date := some (.valid 90) })])
      ∧ parseDate (some (DateStr.valid 90)) = some 90)
    ∧ (100 : Int) - 90 ≤ 60 * 86400 := by
  refine ⟨⟨by decide, rfl⟩, ?_⟩
  exact load_state_prunes 100 (.dictFormat [("k", { synced_date := some (.valid 90) })])
    ("k", { synced_date := some (.valid 90) }) (by decide) 90 rfl

/-- C7 counterexample: a well-formed persisted dict does not always load to
the stored mapping — `load_state` also runs the age cleanup, so a stored entry
synced 120 days before load time is absent from the in-memory mapping. -/
theorem load_state_not_identity_cex :
    containsKey ([("k", { synced_date := some (.valid 0) })] : Ledger) "k" = true
    ∧ containsKey (load_state (120 * 86400)
        (.dictFormat [("k", { synced_date := some (.valid 0) })])) "k" = false := by
  decide

/-- C7 (amended): `load_state` is total: a missing, unreadable or corrupt
file yields the empty mapping; a well-formed flat list is upgraded in memory
(every listed id becomes a key with `synced_date = now`); a well-formed dict
is taken as stored — in both well-formed cases followed by the no-op id
migration and the age cleanup. -/
theorem load_state_spec (now : Time) (m : Ledger) (ids : List String) (k : String) :
    load_state now .missing = []
    ∧ load_state now .unreadable = []
    ∧ load_state now (.dictFormat m) = cleanup_old_events now m
    ∧ load_state now (.listFormat ids) = cleanup_old_events now (upgradeList now ids)
    ∧ (containsKey (upgradeList now ids) k = true ↔ k ∈ ids)
    ∧ (k ∈ ids →
        lookup (upgradeList now ids) k = some { synced_date := some (.valid now) }) := by
  refine ⟨rfl, rfl, rfl, rfl, ?_, ?_⟩
  · rw [containsKey_iff]
    unfold upgradeList
    rw [upgradeList_keys_aux]
    simp [keysOf]
  · intro hk
    unfold upgradeList
    exact upgradeList_lookup_aux _ k ids [] (Or.inl hk)

/-- Witness for C7 (amended): a listed id is present after upgrade with a
fresh `synced_date`. -/
theorem load_state_spec_witness :
    ("a" ∈ ["a"])
    ∧ lookup (upgradeList 7 ["a"]) "a" = some { synced_date := some (.valid 7) } := by
  refine ⟨by decide, ?_⟩
  exact (load_state_spec 7 [] ["a"] "a").2.2.2.2.2 (by decide)

/-! ### Claim theorems: stable identity (C2) -/

/-- C2 counterexample: the hash input `f'{title}-{start}-{organizer}'` is an
ambiguous encoding — two events differing in title, start time and organizer
can produce the identical hash input, hence the identical `stableId` for any
digest function (in particular MD5). -/
theorem hash_input_collision_cex :
    hash_input "a" "2020-01-01T00:00:00" "b-2021-01-01T00:00:00-c"
      = hash_input "a-2020-01-01T00:00:00-b" "2021-01-01T00:00:00" "c"
    ∧ ("a" : String) ≠ "a-2020-01-01T00:00:00-b"
    ∧ ("2020-01-01T00:00:00" : String) ≠ "2021-01-01T00:00:00"
    ∧ ("b-2021-01-01T00:00:00-c" : String) ≠ "c" := by
  refine ⟨?_, by decide, by decide, by decide⟩
  decide

/-- C2 (amended): `stableId` is a pure deterministic function of
(title, start, organizer): equal triples always yield the same id; but
distinct triples need not yield distinct ids — equality of the concatenated
hash input already forces equal ids under every digest function. -/
theorem unique_id_deterministic (md5hex : String → String) (t s o t' s' o' : String) :
    (t = t' → s = s' → o = o' →
      unique_id md5hex t s o = unique_id md5hex t' s' o')
    ∧ (hash_input t s o = hash_input t' s' o' →
      unique_id md5hex t s o = unique_id md5hex t' s' o') := by
  constructor
  · rintro rfl rfl rfl; rfl
  · intro h
    unfold unique_id
    rw [h]

/-- Witness for C2 (amended): equal fields give the equal id, evaluated at a
concrete digest function. -/
theorem unique_id_deterministic_witness :
    ("T" : String) = "T"
    ∧ unique_id (fun s => s) "T" "2024-06-01T10:00:00" "alice"
        = unique_id (fun s => s) "T" "2024-06-01T10:00:00" "alice" := by
  refine ⟨rfl, ?_⟩
  exact (unique_id_deterministic (fun s => s) "T" "2024-06-01T10:00:00"
    "alice" "T" "2024-06-01T10:00:00" "alice").1 rfl rfl rfl

/-! ### Lemmas about the classification pass -/

lemma find_matching_old_event_spec (l : Ledger) (e : Event) (k : String)
    (h : find_matching_old_event l e = some k) :
    isOldStyleId k = true ∧ containsKey l k = true := by
  unfold find_matching_old_event at h
  cases hf : l.find? (fun kv =>
      isOldStyleId kv.1 &&
      pyStrip (kv.2.title.getD "") == pyStrip e.title &&
      kv.2.event_date.getD "" == e.start_iso) with
  | none => rw [hf] at h; simp at h
  | some kv =>
    rw [hf] at h
    simp only [Option.map_some'] at h
    obtain rfl := Option.some_injective _ h
    have hp := List.find?_some hf
    have hmem := List.mem_of_find?_eq_some hf
    simp only [Bool.and_eq_true] at hp
    refine ⟨hp.1.1, ?_⟩
    rw [containsKey_iff]
    exact List.mem_map.mpr ⟨kv, hmem, rfl⟩

lemma find_matching_old_event_none_mono (l l2 : Ledger) (e : Event)
    (h : find_matching_old_event l e = none)
    (hsub : ∀ kv ∈ l2, isOldStyleId kv.1 = true → kv ∈ l) :
    find_matching_old_event l2 e = none := by
  unfold find_matching_old_event at h ⊢
  rw [Option.map_eq_none'] at h ⊢
  rw [List.find?_eq_none] at h ⊢
  intro kv hm hp
  have hp2 := hp
  simp only [Bool.and_eq_true] at hp2
  exact h kv (hsub kv hm hp2.1.1) hp

lemma classify_skip (now : Time) (g : Remote) (st : Phase1State) (e : Event)
    (h : is_synced st.ledger e = true) :
    classify now g st e = { st with skipped := st.skipped ++ [e] } := by
  unfold classify
  rw [if_pos h]

lemma classify_keys_superset (now : Time) (g : Remote) (st : Phase1State) (e : Event)
    (k : String) (hk : k ∈ keysOf st.ledger) (hold : isOldStyleId k = false) :
    k ∈ keysOf (classify now g st e).ledger := by
  unfold classify
  split
  · exact hk
  · split
    next old_id hf =>
      obtain ⟨holdstyle, hc⟩ := find_matching_old_event_spec _ _ _ hf
      show k ∈ keysOf (update_event_id st.ledger old_id e.id e now)
      unfold update_event_id
      rw [if_pos hc, mem_keysOf_eraseKey]
      refine ⟨(mem_keysOf_insertKey _ _ _ _).mpr (Or.inl hk), ?_⟩
      intro heq
      rw [heq, holdstyle] at hold
      exact Bool.true_eq_false ▸ hold.symm ▸ (by simp at hold)
    next hf =>
      split
      · show k ∈ keysOf (mark_synced st.ledger e _ now)
        exact (mem_keysOf_insertKey _ _ _ _).mpr (Or.inl hk)
      · exact hk

lemma classify_keys_sub (now : Time) (g : Remote) (st : Phase1State) (e : Event)
    (k : String) (hk : k ∈ keysOf (classify now g st e).ledger) :
    k ∈ keysOf st.ledger ∨ k = e.id := by
  unfold classify at hk
  split at hk
  · exact Or.inl hk
  · split at hk
    next old_id hf =>
      revert hk
      show k ∈ keysOf (update_event_id st.ledger old_id e.id e now) → _
      unfold update_event_id
      split
      · intro hk
        rw [mem_keysOf_eraseKey] at hk
        rcases (mem_keysOf_insertKey _ _ _ _).mp hk.1 with h | h
        · exact Or.inl h
        · exact Or.inr h
      · exact Or.inl
    next hf =>
      split at hk
      · rcases (mem_keysOf_insertKey _ _ _ _).mp hk with h | h
        · exact Or.inl h
        · exact Or.inr h
      · exact Or.inl hk

lemma classify_old_pair (now : Time) (g : Remote) (st : Phase1State) (e : Event)
    (kv : String × EventInfo) (hm : kv ∈ (classify now g st e).ledger)
    (hold : isOldStyleId kv.1 = true) (hws : isOldStyleId e.id = false) :
    kv ∈ st.ledger := by
  have hne : kv.1 ≠ e.id := fun h => by rw [h, hws] at hold; exact absurd hold (by simp)
  unfold classify at hm
  split at hm
  · exact hm
  · split at hm
    next old_id hf =>
      revert hm
      show kv ∈ update_event_id st.ledger old_id e.id e now → _
      unfold update_event_id
      split
      · intro hm
        rw [mem_eraseKey] at hm
        rcases mem_insertKey _ _ _ _ hm.1 with h | h
        · exact h
        · exact absurd h hne
      · exact id
    next hf =>
      split at hm
      · rcases mem_insertKey _ _ _ _ hm with h | h
        · exact h
        · exact absurd h hne
      · exact hm

lemma classify_establishes (now : Time) (g : Remote) (st : Phase1State) (e : Event)
    (hws : isOldStyleId e.id = false) :
    e.id ∈ keysOf (classify now g st e).ledger ∨ e ∈ (classify now g st e).new_events := by
  unfold classify
  split
  next h =>
    left
    exact (containsKey_iff _ _).mp h
  · split
    next old_id hf =>
      left
      obtain ⟨holdstyle, hc⟩ := find_matching_old_event_spec _ _ _ hf
      show e.id ∈ keysOf (update_event_id st.ledger old_id e.id e now)
      unfold update_event_id
      rw [if_pos hc, mem_keysOf_eraseKey]
      refine ⟨(mem_keysOf_insertKey _ _ _ _).mpr (Or.inr rfl), ?_⟩
      intro heq
      rw [heq, holdstyle] at hws
      exact absurd hws (by simp)
    next hf =>
      split
      · left
        show e.id ∈ keysOf (mark_synced st.ledger e _ now)
        exact (mem_keysOf_insertKey _ _ _ _).mpr (Or.inr rfl)
      · right
        simp

lemma classify_new_events_mono (now : Time) (g : Remote) (st : Phase1State) (e e' : Event)
    (h : e' ∈ st.new_events) : e' ∈ (classify now g st e).new_events := by
  unfold classify
  split
  · exact h
  · split
    · exact h
    · split
      · exact h
      · simp [h]

lemma classify_new_events_sub (now : Time) (g : Remote) (st : Phase1State) (e e' : Event)
    (h : e' ∈ (classify now g st e).new_events) : e' ∈ st.new_events ∨ e' = e := by
  unfold classify at h
  split at h
  · exact Or.inl h
  · split at h
    · exact Or.inl h
    · split at h
      · exact Or.inl h
      · simpa using h

lemma foldl_classify_keys_superset (now : Time) (g : Remote) (es : List Event) :
    ∀ (st : Phase1State) (k : String), k ∈ keysOf st.ledger → isOldStyleId k = false →
      k ∈ keysOf (es.foldl (classify now g) st).ledger := by
  induction es with
  | nil => intro st k hk _; exact hk
  | cons e t ih =>
    intro st k hk hold
    rw [List.foldl_cons]
    exact ih _ k (classify_keys_superset now g st e k hk hold) hold

lemma foldl_classify_keys_sub (now : Time) (g : Remote) (es : List Event) :
    ∀ (st : Phase1State) (k : String), k ∈ keysOf (es.foldl (classify now g) st).ledger →
      k ∈ keysOf st.ledger ∨ k ∈ es.map (fun e => e.id) := by
  induction es with
  | nil => intro st k hk; exact Or.inl hk
  | cons e t ih =>
    intro st k hk
    rw [List.foldl_cons] at hk
    rcases ih _ k hk with h | h
    · rcases classify_keys_sub now g st e k h with h2 | h2
      · exact Or.inl h2
      · right; simp [h2]
    · right
      rw [List.map_cons]
      exact List.mem_cons_of_mem _ h

lemma foldl_classify_old_pair (now : Time) (g : Remote) (es : List Event) :
    ∀ (st : Phase1State) (kv : String × EventInfo),
      kv ∈ (es.foldl (classify now g) st).ledger → isOldStyleId kv.1 = true →
      (∀ e ∈ es, isOldStyleId e.id = false) → kv ∈ st.ledger := by
  induction es with
  | nil => intro st kv hm _ _; exact hm
  | cons e t ih =>
    intro st kv hm hold hws
    rw [List.foldl_cons] at hm
    exact classify_old_pair now g st e kv
      (ih _ kv hm hold (fun e' h' => hws e' (List.mem_cons_of_mem _ h')))
      hold (hws e (List.mem_cons_self _ _))

lemma foldl_classify_new_events_mono (now : Time) (g : Remote) (es : List Event) :
    ∀ (st : Phase1State) (e' : Event), e' ∈ st.new_events →
      e' ∈ (es.foldl (classify now g) st).new_events := by
  induction es with
  | nil => intro st e' h; exact h
  | cons e t ih =>
    intro st e' h
    rw [List.foldl_cons]
    exact ih _ e' (classify_new_events_mono now g st e e' h)

lemma foldl_classify_new_events_sub (now : Time) (g : Remote) (es : List Event) :
    ∀ (st : Phase1State) (e' : Event), e' ∈ (es.foldl (classify now g) st).new_events →
      e' ∈ st.new_events ∨ e' ∈ es := by
  induction es with
  | nil => intro st e' h; exact Or.inl h
  | cons e t ih =>
    intro st e' h
    rw [List.foldl_cons] at h
    rcases ih _ e' h with h2 | h2
    · rcases classify_new_events_sub now g st e e' h2 with h3 | h3
      · exact Or.inl h3
      · right; rw [h3]; exact List.mem_cons_self _ _
    · exact Or.inr (List.mem_cons_of_mem _ h2)

lemma foldl_classify_covers (now : Time) (g : Remote) (es : List Event) :
    ∀ (st : Phase1State), (∀ e ∈ es, isOldStyleId e.id = false) →
      ∀ e ∈ es, e.id ∈ keysOf (es.foldl (classify now g) st).ledger ∨
        e ∈ (es.foldl (classify now g) st).new_events := by
  induction es with
  | nil => intro st _ e he; exact absurd he (List.not_mem_nil e)
  | cons e0 t ih =>
    intro st hws e he
    rw [List.foldl_cons]
    rcases List.mem_cons.mp he with rfl | he
    · rcases classify_establishes now g st e (hws e (List.mem_cons_self _ _)) with h | h
      · exact Or.inl (foldl_classify_keys_superset now g t _ _ h (hws e (List.mem_cons_self _ _)))
      · exact Or.inr (foldl_classify_new_events_mono now g t _ e h)
    · exact ih _ (fun e' h' => hws e' (List.mem_cons_of_mem _ h')) e he

lemma foldl_classify_all_synced (now : Time) (g : Remote) (es : List Event) :
    ∀ (st : Phase1State), (∀ e ∈ es, is_synced st.ledger e = true) →
      es.foldl (classify now g) st = { st with skipped := st.skipped ++ es } := by
  induction es with
  | nil => intro st _; simp
  | cons e t ih =>
    intro st h
    rw [List.foldl_cons, classify_skip now g st e (h e (List.mem_cons_self _ _)),
      ih { st with skipped := st.skipped ++ [e] }
        (fun e' he' => h e' (List.mem_cons_of_mem _ he'))]
    simp

/-! ### Lemmas about the creation pass -/

lemma foldl_createStep_snd (now : Time) (g : Remote) (es : List Event) :
    ∀ (acc : Ledger × List (Event × Option String)),
      (es.foldl (createStep now g) acc).2 = acc.2 ++ es.map (fun e => (e, g.create_event e)) := by
  induction es with
  | nil => intro acc; simp
  | cons e t ih =>
    intro acc
    rw [List.foldl_cons, ih]
    unfold createStep
    cases hc : g.create_event e <;> simp [hc]

lemma applyCreates_results (now : Time) (g : Remote) (l : Ledger) (es : List Event) :
    (applyCreates now g l es).2 = es.map (fun e => (e, g.create_event e)) := by
  unfold applyCreates
  rw [foldl_createStep_snd]
  simp

lemma createStep_keys_superset (now : Time) (g : Remote)
    (acc : Ledger × List (Event × Option String)) (e : Event) (k : String)
    (hk : k ∈ keysOf acc.1) : k ∈ keysOf (createStep now g acc e).1 := by
  unfold createStep
  cases hc : g.create_event e with
  | none => exact hk
  | some gid =>
    show k ∈ keysOf (mark_synced acc.1 e (some gid) now)
    exact (mem_keysOf_insertKey _ _ _ _).mpr (Or.inl hk)

lemma createStep_keys_sub (now : Time) (g : Remote)
    (acc : Ledger × List (Event × Option String)) (e : Event) (k : String)
    (hk : k ∈ keysOf (createStep now g acc e).1) : k ∈ keysOf acc.1 ∨ k = e.id := by
  unfold createStep at hk
  revert hk
  cases hc : g.create_event e with
  | none => exact Or.inl
  | some gid =>
    intro hk
    exact (mem_keysOf_insertKey _ _ _ _).mp hk

lemma foldl_createStep_keys_superset (now : Time) (g : Remote) (es : List Event) :
    ∀ (acc : Ledger × List (Event × Option String)) (k : String),
      k ∈ keysOf acc.1 → k ∈ keysOf (es.foldl (createStep now g) acc).1 := by
  induction es with
  | nil => intro acc k hk; exact hk
  | cons e t ih =>
    intro acc k hk
    rw [List.foldl_cons]
    exact ih _ k (createStep_keys_superset now g acc e k hk)

lemma foldl_createStep_keys_sub (now : Time) (g : Remote) (es : List Event) :
    ∀ (acc : Ledger × List (Event × Option String)) (k : String),
      k ∈ keysOf (es.foldl (createStep now g) acc).1 →
      k ∈ keysOf acc.1 ∨ k ∈ es.map (fun e => e.id) := by
  induction es with
  | nil => intro acc k hk; exact Or.inl hk
  | cons e t ih =>
    intro acc k hk
    rw [List.foldl_cons] at hk
    rcases ih _ k hk with h | h
    · rcases createStep_keys_sub now g acc e k h with h2 | h2
      · exact Or.inl h2
      · right; simp [h2]
    · right
      rw [List.map_cons]
      exact List.mem_cons_of_mem _ h

lemma foldl_createStep_success (now : Time) (g : Remote) (es : List Event) :
    ∀ (acc : Ledger × List (Event × Option String)) (e : Event) (gid : String),
      e ∈ es → g.create_event e = some gid →
      e.id ∈ keysOf (es.foldl (createStep now g) acc).1 := by
  induction es with
  | nil => intro acc e gid he _; exact absurd he (List.not_mem_nil e)
  | cons e0 t ih =>
    intro acc e gid he hc
    rw [List.foldl_cons]
    rcases List.mem_cons.mp he with rfl | he
    · apply foldl_createStep_keys_superset now g t _ e.id
      unfold createStep
      rw [hc]
      show e.id ∈ keysOf (mark_synced acc.1 e (some gid) now)
      exact (mem_keysOf_insertKey _ _ _ _).mpr (Or.inr rfl)
    · exact ih _ e gid he hc

lemma foldl_createStep_not_inserted (now : Time) (g : Remote) (es : List Event) :
    ∀ (acc : Ledger × List (Event × Option String)) (k : String),
      k ∉ keysOf acc.1 → (∀ e' ∈ es, e'.id = k → g.create_event e' = none) →
      k ∉ keysOf (es.foldl (createStep now g) acc).1 := by
  induction es with
  | nil => intro acc k hk _; exact hk
  | cons e t ih =>
    intro acc k hk hnone
    rw [List.foldl_cons]
    apply ih _ k ?_ (fun e' h' => hnone e' (List.mem_cons_of_mem _ h'))
    intro hmem
    rcases createStep_keys_sub now g acc e k hmem with h | h
    · exact hk h
    · have := hnone e (List.mem_cons_self _ _) h.symm
      unfold createStep at hmem
      rw [this] at hmem
      exact hk hmem

lemma foldl_createStep_lookup_ne (now : Time) (g : Remote) (es : List Event) :
    ∀ (acc : Ledger × List (Event × Option String)) (k : String),
      (∀ e' ∈ es, e'.id ≠ k) →
      lookup (es.foldl (createStep now g) acc).1 k = lookup acc.1 k := by
  induction es with
  | nil => intro acc k _; rfl
  | cons e t ih =>
    intro acc k hne
    rw [List.foldl_cons, ih _ k (fun e' h' => hne e' (List.mem_cons_of_mem _ h'))]
    unfold createStep
    cases hc : g.create_event e with
    | none => rfl
    | some gid =>
      show lookup (mark_synced acc.1 e (some gid) now) k = lookup acc.1 k
      unfold mark_synced
      exact lookup_insertKey_ne _ _ _ _ (fun h => hne e (List.mem_cons_self _ _) h.symm)

/-! ### Lemmas about the deletion pass -/

lemma deleteStep_eq_none (g : Remote) (acc : Ledger × List (String × Bool)) (k : String)
    (hg : ((lookup acc.1 k).getD {}).google_event_id = none) :
    deleteStep g acc k = (eraseKey acc.1 k, acc.2) := by
  unfold deleteStep
  simp only [hg]

lemma deleteStep_eq_some_true (g : Remote) (acc : Ledger × List (String × Bool))
    (k gid : String) (hg : ((lookup acc.1 k).getD {}).google_event_id = some gid)
    (hb : delete_event (g.delete_response gid) = true) :
    deleteStep g acc k = (eraseKey acc.1 k, acc.2 ++ [(gid, true)]) := by
  unfold deleteStep
  simp only [hg, hb, if_true]

lemma deleteStep_eq_some_false (g : Remote) (acc : Ledger × List (String × Bool))
    (k gid : String) (hg : ((lookup acc.1 k).getD {}).google_event_id = some gid)
    (hb : delete_event (g.delete_response gid) = false) :
    deleteStep g acc k = (acc.1, acc.2 ++ [(gid, false)]) := by
  unfold deleteStep
  simp only [hg, hb, Bool.false_eq_true, if_false]

lemma deletePass_eq (g : Remote) (l : Ledger) (cs : List String) :
    deletePass g l cs = cs.foldl (deleteStep g) (l, []) := rfl

lemma deleteStep_snd_mono (g : Remote) (acc : Ledger × List (String × Bool)) (k : String)
    (r : String × Bool) (hr : r ∈ acc.2) : r ∈ (deleteStep g acc k).2 := by
  cases hg : ((lookup acc.1 k).getD {}).google_event_id with
  | none => rw [deleteStep_eq_none g acc k hg]; exact hr
  | some gid =>
    cases hb : delete_event (g.delete_response gid)
    · rw [deleteStep_eq_some_false g acc k gid hg hb]
      exact List.mem_append_left _ hr
    · rw [deleteStep_eq_some_true g acc k gid hg hb]
      exact List.mem_append_left _ hr

lemma foldl_deleteStep_snd_mono (g : Remote) (cs : List String) :
    ∀ (acc : Ledger × List (String × Bool)) (r : String × Bool),
      r ∈ acc.2 → r ∈ (cs.foldl (deleteStep g) acc).2 := by
  induction cs with
  | nil => intro acc r hr; exact hr
  | cons c t ih =>
    intro acc r hr
    rw [List.foldl_cons]
    exact ih _ r (deleteStep_snd_mono g acc c r hr)

lemma deleteStep_keys_sub (g : Remote) (acc : Ledger × List (String × Bool)) (c k : String)
    (hk : k ∈ keysOf (deleteStep g acc c).1) : k ∈ keysOf acc.1 := by
  revert hk
  cases hg : ((lookup acc.1 c).getD {}).google_event_id with
  | none =>
    rw [deleteStep_eq_none g acc c hg]
    intro hk
    exact ((mem_keysOf_eraseKey _ _ _).mp hk).1
  | some gid =>
    cases hb : delete_event (g.delete_response gid)
    · rw [deleteStep_eq_some_false g acc c gid hg hb]
      exact id
    · rw [deleteStep_eq_some_true g acc c gid hg hb]
      intro hk
      exact ((mem_keysOf_eraseKey _ _ _).mp hk).1

lemma foldl_deleteStep_keys_sub (g : Remote) (cs : List String) :
    ∀ (acc : Ledger × List (String × Bool)) (k : String),
      k ∈ keysOf (cs.foldl (deleteStep g) acc).1 → k ∈ keysOf acc.1 := by
  induction cs with
  | nil => intro acc k hk; exact hk
  | cons c t ih =>
    intro acc k hk
    rw [List.foldl_cons] at hk
    exact deleteStep_keys_sub g acc c k (ih _ k hk)

lemma foldl_deleteStep_absent (g : Remote) (cs : List String) :
    ∀ (acc : Ledger × List (String × Bool)) (k : String),
      containsKey acc.1 k = false → containsKey (cs.foldl (deleteStep g) acc).1 k = false := by
  intro acc k hk
  rw [containsKey_eq_false_iff] at hk ⊢
  intro hmem
  exact hk (foldl_deleteStep_keys_sub g cs acc k hmem)

lemma foldl_deleteStep_all_success (g : Remote) (cs : List String) :
    ∀ (acc : Ledger × List (String × Bool)),
      (∀ r ∈ (cs.foldl (deleteStep g) acc).2, r.2 = true) →
      ∀ c ∈ cs, containsKey (cs.foldl (deleteStep g) acc).1 c = false := by
  induction cs with
  | nil => intro acc _ c hc; exact absurd hc (List.not_mem_nil c)
  | cons c0 t ih =>
    intro acc hall c hc
    rw [List.foldl_cons] at hall ⊢
    rcases List.mem_cons.mp hc with rfl | hc
    · cases hg : ((lookup acc.1 c).getD {}).google_event_id with
      | none =>
        apply foldl_deleteStep_absent g t _ c
        rw [deleteStep_eq_none g acc c hg]
        exact containsKey_eraseKey_self acc.1 c
      | some gid =>
        cases hb : delete_event (g.delete_response gid) with
        | true =>
          apply foldl_deleteStep_absent g t _ c
          rw [deleteStep_eq_some_true g acc c gid hg hb]
          exact containsKey_eraseKey_self acc.1 c
        | false =>
          exfalso
          have hrec : (gid, false) ∈ (t.foldl (deleteStep g) (deleteStep g acc c)).2 := by
            apply foldl_deleteStep_snd_mono
            rw [deleteStep_eq_some_false g acc c gid hg hb]
            simp
          have := hall (gid, false) hrec
          simp at this
    · exact ih _ hall c hc

lemma foldl_deleteStep_lookup_not_mem (g : Remote) (cs : List String) :
    ∀ (acc : Ledger × List (String × Bool)) (k : String), k ∉ cs →
      lookup (cs.foldl (deleteStep g) acc).1 k = lookup acc.1 k := by
  induction cs with
  | nil => intro acc k _; rfl
  | cons c t ih =>
    intro acc k hk
    rw [List.foldl_cons, ih _ k (fun h => hk (List.mem_cons_of_mem _ h))]
    have hne : k ≠ c := fun h => hk (h ▸ List.mem_cons_self _ _)
    cases hg : ((lookup acc.1 c).getD {}).google_event_id with
    | none =>
      rw [deleteStep_eq_none g acc c hg]
      exact lookup_eraseKey_ne acc.1 c k hne
    | some gid =>
      cases hb : delete_event (g.delete_response gid)
      · rw [deleteStep_eq_some_false g acc c gid hg hb]
      · rw [deleteStep_eq_some_true g acc c gid hg hb]
        exact lookup_eraseKey_ne acc.1 c k hne

lemma foldl_deleteStep_calls (g : Remote) (cs : List String) :
    ∀ (acc : Ledger × List (String × Bool)), cs.Nodup →
      (cs.foldl (deleteStep g) acc).2 = acc.2 ++ cs.filterMap (fun c =>
        ((lookup acc.1 c).getD {}).google_event_id.map
          (fun gid => (gid, delete_event (g.delete_response gid)))) := by
  induction cs with
  | nil => intro acc _; simp
  | cons c t ih =>
    intro acc hnd
    obtain ⟨hni, hnd'⟩ := List.nodup_cons.mp hnd
    rw [List.foldl_cons]
    have hlock : ∀ c' ∈ t, lookup (deleteStep g acc c).1 c' = lookup acc.1 c' := by
      intro c' hc'
      have hne : c' ≠ c := fun h => hni (h ▸ hc')
      cases hg : ((lookup acc.1 c).getD {}).google_event_id with
      | none =>
        rw [deleteStep_eq_none g acc c hg]
        exact lookup_eraseKey_ne acc.1 c c' hne
      | some gid =>
        cases hb : delete_event (g.delete_response gid)
        · rw [deleteStep_eq_some_false g acc c gid hg hb]
        · rw [deleteStep_eq_some_true g acc c gid hg hb]
          exact lookup_eraseKey_ne acc.1 c c' hne
    rw [ih _ hnd']
    rw [List.filterMap_cons]
    have hfm : (t.filterMap (fun c' =>
        ((lookup (deleteStep g acc c).1 c').getD {}).google_event_id.map
          (fun gid => (gid, delete_event (g.delete_response gid)))))
        = (t.filterMap (fun c' =>
        ((lookup acc.1 c').getD {}).google_event_id.map
          (fun gid => (gid, delete_event (g.delete_response gid))))) := by
      apply List.filterMap_congr
      intro c' hc'
      rw [hlock c' hc']
    rw [hfm]
    cases hg : ((lookup acc.1 c).getD {}).google_event_id with
    | none =>
      rw [deleteStep_eq_none g acc c hg]
      simp [hg]
    | some gid =>
      cases hb : delete_event (g.delete_response gid)
      · rw [deleteStep_eq_some_false g acc c gid hg hb]
        simp [hg, hb]
      · rw [deleteStep_eq_some_true g acc c gid hg hb]
        simp [hg, hb]

/-! ### Lemmas about a whole cycle -/

lemma lookup_isSome (l : Ledger) (k : String) :
    (lookup l k).isSome = containsKey l k := by
  induction l with
  | nil => rfl
  | cons kv t ih =>
    rw [lookup_cons]
    by_cases h : kv.1 = k
    · have hb : (kv.1 == k) = true := by simp [h]
      simp [containsKey, hb, h]
    · have hb : (kv.1 == k) = false := by simp [h]
      simp only [if_neg h, containsKey, List.any_cons, hb, Bool.false_or]
      exact ih

lemma sync_events_unfold (now : Time) (g : Remote) (events : List Event) (l0 : Ledger) :
    sync_events now g events l0 =
      { ledger := (deletePass g
          (applyCreates now g (phase1 now g l0 events).ledger (phase1 now g l0 events).new_events).1
          ((keysOf (applyCreates now g (phase1 now g l0 events).ledger (phase1 now g l0 events).new_events).1).dedup.filter
            (fun k => !(events.map (fun e => e.id)).contains k))).1,
        new_events := (phase1 now g l0 events).new_events,
        checks := (phase1 now g l0 events).checks,
        skipped := (phase1 now g l0 events).skipped,
        migrations := (phase1 now g l0 events).migrations,
        create_results := (applyCreates now g (phase1 now g l0 events).ledger (phase1 now g l0 events).new_events).2,
        candidates := (keysOf (applyCreates now g (phase1 now g l0 events).ledger (phase1 now g l0 events).new_events).1).dedup.filter
          (fun k => !(events.map (fun e => e.id)).contains k),
        delete_calls := (deletePass g
          (applyCreates now g (phase1 now g l0 events).ledger (phase1 now g l0 events).new_events).1
          ((keysOf (applyCreates now g (phase1 now g l0 events).ledger (phase1 now g l0 events).new_events).1).dedup.filter
            (fun k => !(events.map (fun e => e.id)).contains k))).2 } := rfl

lemma sync_cycle_keys (now : Time) (g : Remote) (events : List Event) (l0 : Ledger)
    (hws : ∀ e ∈ events, isOldStyleId e.id = false)
    (hcre : ∀ p ∈ (sync_events now g events l0).create_results, p.2 ≠ none)
    (hdel : ∀ r ∈ (sync_events now g events l0).delete_calls, r.2 = true) :
    ∀ k, containsKey (sync_events now g events l0).ledger k = true ↔
      k ∈ events.map (fun e => e.id) := by
  rw [sync_events_unfold] at hcre hdel ⊢
  dsimp only at hcre hdel ⊢
  rw [deletePass_eq] at hdel ⊢
  intro k
  constructor
  · intro hc
    by_contra hnk
    have hkeys := (containsKey_iff _ k).mp hc
    have hkmid := foldl_deleteStep_keys_sub g _ _ k hkeys
    have hkc : k ∈ (keysOf (applyCreates now g (phase1 now g l0 events).ledger
        (phase1 now g l0 events).new_events).1).dedup.filter
          (fun k => !(events.map (fun e => e.id)).contains k) := by
      refine List.mem_filter.mpr ⟨List.mem_dedup.mpr hkmid, ?_⟩
      show (!(events.map (fun e => e.id)).contains k) = true
      have hcon : (events.map (fun e => e.id)).contains k = false := by
        rw [Bool.eq_false_iff]
        intro h
        exact hnk (List.elem_iff.mp h)
      rw [hcon]
      rfl
    have habs := foldl_deleteStep_all_success g _ _ hdel k hkc
    rw [containsKey_eq_false_iff] at habs
    exact habs hkeys
  · intro hk
    rcases List.mem_map.mp hk with ⟨e, he, rfl⟩
    have hmid : e.id ∈ keysOf (applyCreates now g (phase1 now g l0 events).ledger
        (phase1 now g l0 events).new_events).1 := by
      rcases foldl_classify_covers now g events _ hws e he with h | h
      · exact foldl_createStep_keys_superset now g _ _ e.id h
      · have hmem : (e, g.create_event e) ∈ (applyCreates now g
            (phase1 now g l0 events).ledger (phase1 now g l0 events).new_events).2 := by
          rw [applyCreates_results]
          exact List.mem_map.mpr ⟨e, h, rfl⟩
        have hne := hcre _ hmem
        cases hcc : g.create_event e with
        | none => rw [hcc] at hne; exact absurd rfl hne
        | some gid => exact foldl_createStep_success now g _ _ e gid h hcc
    have hnc : e.id ∉ (keysOf (applyCreates now g (phase1 now g l0 events).ledger
        (phase1 now g l0 events).new_events).1).dedup.filter
          (fun k => !(events.map (fun e => e.id)).contains k) := by
      intro hmemc
      have hpred := (List.mem_filter.mp hmemc).2
      have hin : (events.map (fun e => e.id)).contains e.id = true :=
        List.elem_iff.mpr hk
      rw [hin] at hpred
      exact absurd hpred (by simp)
    rw [← lookup_isSome,
      foldl_deleteStep_lookup_not_mem g _ _ e.id hnc, lookup_isSome]
    exact (containsKey_iff _ _).mpr hmid

lemma sync_events_on_synced_ledger (now2 : Time) (g : Remote) (events : List Event)
    (L : Ledger) (hall : ∀ k, containsKey L k = true ↔ k ∈ events.map (fun e => e.id)) :
    sync_events now2 g events L =
      { ledger := L, new_events := [], checks := [], skipped := events, migrations := [],
        create_results := [], candidates := [], delete_calls := [] } := by
  have hsync : ∀ e ∈ events, is_synced L e = true := fun e he =>
    (hall e.id).mpr (List.mem_map.mpr ⟨e, he, rfl⟩)
  have hph : phase1 now2 g L events = ⟨L, [], [], events, []⟩ := by
    unfold phase1
    rw [foldl_classify_all_synced now2 g events ⟨L, [], [], [], []⟩ hsync]
    simp
  rw [sync_events_unfold, hph]
  dsimp only
  have hac : applyCreates now2 g L [] = (L, []) := rfl
  rw [hac]
  dsimp only
  have hcand : (keysOf L).dedup.filter (fun k => !(events.map (fun e => e.id)).contains k)
      = [] := by
    rw [List.filter_eq_nil_iff]
    intro k hk
    have hmem : k ∈ keysOf L := List.mem_dedup.mp hk
    have hin : (events.map (fun e => e.id)).contains k = true :=
      List.elem_iff.mpr ((hall k).mp ((containsKey_iff L k).mpr hmem))
    show ¬(!(events.map (fun e => e.id)).contains k) = true
    rw [hin]
    simp
  rw [hcand]
  rfl

/-- C1: running `sync_events` twice over the identical snapshot, with no
intervening change to the remote calendar (same oracle), after a first cycle
in which every `create_event` and every `delete_event` call succeeded, makes
the second cycle a no-op: every event is skipped as already synced, no
`create_event` call is issued (empty `create_results`), the
deletion-candidate set is empty and no `delete_event` call is issued — the
ledger is unchanged. Snapshot ids come from `unique_id` and are therefore
never old-style. -/
theorem sync_events_idempotent (now now2 : Time) (g : Remote) (events : List Event)
    (l0 : Ledger)
    (hws : ∀ e ∈ events, isOldStyleId e.id = false)
    (hcre : ∀ p ∈ (sync_events now g events l0).create_results, p.2 ≠ none)
    (hdel : ∀ r ∈ (sync_events now g events l0).delete_calls, r.2 = true) :
    sync_events now2 g events (sync_events now g events l0).ledger =
      { ledger := (sync_events now g events l0).ledger,
        new_events := [], checks := [], skipped := events, migrations := [],
        create_results := [], candidates := [], delete_calls := [] } :=
  sync_events_on_synced_ledger now2 g events (sync_events now g events l0).ledger
    (sync_cycle_keys now g events l0 hws hcre hdel)

/-- Witness for C1: a one-event snapshot over an empty ledger, with a
successful create, makes the second cycle a pure skip. -/
theorem sync_events_idempotent_witness :
    (∀ e ∈ [Event.mk "outlook-aaaa" "T" "2024-06-01T10:00:00" "alice"],
        isOldStyleId e.id = false)
    ∧ (∀ p ∈ (sync_events 5
        { check_event_exists := fun _ => none,
          create_event := fun _ => some "gid1",
          delete_response := fun _ => .ok }
        [Event.mk "outlook-aaaa" "T" "2024-06-01T10:00:00" "alice"] []).create_results,
        p.2 ≠ none)
    ∧ (∀ r ∈ (sync_events 5
        { check_event_exists := fun _ => none,
          create_event := fun _ => some "gid1",
          delete_response := fun _ => .ok }
        [Event.mk "outlook-aaaa" "T" "2024-06-01T10:00:00" "alice"] []).delete_calls,
        r.2 = true)
    ∧ sync_events 6
        { check_event_exists := fun _ => none,
          create_event := fun _ => some "gid1",
          delete_response := fun _ => .ok }
        [Event.mk "outlook-aaaa" "T" "2024-06-01T10:00:00" "alice"]
        (sync_events 5
          { check_event_exists := fun _ => none,
            create_event := fun _ => some "gid1",
            delete_response := fun _ => .ok }
          [Event.mk "outlook-aaaa" "T" "2024-06-01T10:00:00" "alice"] []).ledger =
      { ledger := (sync_events 5
          { check_event_exists := fun _ => none,
            create_event := fun _ => some "gid1",
            delete_response := fun _ => .ok }
          [Event.mk "outlook-aaaa" "T" "2024-06-01T10:00:00" "alice"] []).ledger,
        new_events := [], checks := [],
        skipped := [Event.mk "outlook-aaaa" "T" "2024-06-01T10:00:00" "alice"],
        migrations := [], create_results := [], candidates := [], delete_calls := [] } := by
  refine ⟨by decide, by decide, by decide, ?_⟩
  exact sync_events_idempotent 5 6
    { check_event_exists := fun _ => none,
      create_event := fun _ => some "gid1",
      delete_response := fun _ => .ok }
    [Event.mk "outlook-aaaa" "T" "2024-06-01T10:00:00" "alice"] []
    (by decide) (by decide) (by decide)

/-! ### Branch equations and refined invariants of the classification pass -/

lemma classify_migrate (now : Time) (g : Remote) (st : Phase1State) (e : Event)
    (k : String) (h1 : is_synced st.ledger e = false)
    (h2 : find_matching_old_event st.ledger e = some k) :
    classify now g st e = { st with
      ledger := update_event_id st.ledger k e.id e now,
      migrations := st.migrations ++ [(k, e)] } := by
  unfold classify
  rw [if_neg (by rw [h1]; exact Bool.false_ne_true), h2]

lemma classify_createnew (now : Time) (g : Remote) (st : Phase1State) (e : Event)
    (h1 : is_synced st.ledger e = false)
    (h2 : find_matching_old_event st.ledger e = none)
    (h3 : g.check_event_exists e = none) :
    classify now g st e = { st with
      new_events := st.new_events ++ [e],
      checks := st.checks ++ [e] } := by
  unfold classify
  rw [if_neg (by rw [h1]; exact Bool.false_ne_true), h2, h3]

lemma classify_checks_sub (now : Time) (g : Remote) (st : Phase1State) (e e' : Event)
    (h : e' ∈ (classify now g st e).checks) : e' ∈ st.checks ∨ e' = e := by
  unfold classify at h
  split at h
  · exact Or.inl h
  · split at h
    · exact Or.inl h
    · split at h <;> simpa using h

lemma foldl_classify_checks_sub (now : Time) (g : Remote) (es : List Event) :
    ∀ (st : Phase1State) (e' : Event), e' ∈ (es.foldl (classify now g) st).checks →
      e' ∈ st.checks ∨ e' ∈ es := by
  induction es with
  | nil => intro st e' h; exact Or.inl h
  | cons e t ih =>
    intro st e' h
    rw [List.foldl_cons] at h
    rcases ih _ e' h with h2 | h2
    · rcases classify_checks_sub now g st e e' h2 with h3 | h3
      · exact Or.inl h3
      · right; rw [h3]; exact List.mem_cons_self _ _
    · exact Or.inr (List.mem_cons_of_mem _ h2)

lemma classify_skipped_mono (now : Time) (g : Remote) (st : Phase1State) (e e' : Event)
    (h : e' ∈ st.skipped) : e' ∈ (classify now g st e).skipped := by
  unfold classify
  split
  · simp [h]
  · split
    · exact h
    · split <;> exact h

lemma foldl_classify_skipped_mono (now : Time) (g : Remote) (es : List Event) :
    ∀ (st : Phase1State) (e' : Event), e' ∈ st.skipped →
      e' ∈ (es.foldl (classify now g) st).skipped := by
  induction es with
  | nil => intro st e' h; exact h
  | cons e t ih =>
    intro st e' h
    rw [List.foldl_cons]
    exact ih _ e' (classify_skipped_mono now g st e e' h)

lemma classify_migrations_mono (now : Time) (g : Remote) (st : Phase1State) (e : Event)
    (m : String × Event) (h : m ∈ st.migrations) : m ∈ (classify now g st e).migrations := by
  unfold classify
  split
  · exact h
  · split
    · simp [h]
    · split <;> exact h

lemma foldl_classify_migrations_mono (now : Time) (g : Remote) (es : List Event) :
    ∀ (st : Phase1State) (m : String × Event), m ∈ st.migrations →
      m ∈ (es.foldl (classify now g) st).migrations := by
  induction es with
  | nil => intro st m h; exact h
  | cons e t ih =>
    intro st m h
    rw [List.foldl_cons]
    exact ih _ m (classify_migrations_mono now g st e m h)

lemma foldl_classify_skipped_synced (now : Time) (g : Remote) (es : List Event) :
    ∀ (st : Phase1State) (X : String), containsKey st.ledger X = true →
      isOldStyleId X = false → ∀ e' ∈ es, e'.id = X →
      e' ∈ (es.foldl (classify now g) st).skipped := by
  induction es with
  | nil => intro st X _ _ e' h; exact absurd h (List.not_mem_nil e')
  | cons e t ih =>
    intro st X hc hold e' he' hid
    rw [List.foldl_cons]
    rcases List.mem_cons.mp he' with rfl | he'
    · have hsk : classify now g st e' = { st with skipped := st.skipped ++ [e'] } :=
        classify_skip now g st e' (by rw [is_synced, hid]; exact hc)
      rw [hsk]
      exact foldl_classify_skipped_mono now g t _ e' (by simp)
    · exact ih _ X
        ((containsKey_iff _ _).mpr (classify_keys_superset now g st e X
          ((containsKey_iff _ _).mp hc) hold))
        hold e' he' hid

lemma foldl_classify_new_events_id_synced (now : Time) (g : Remote) (es : List Event) :
    ∀ (st : Phase1State) (X : String), containsKey st.ledger X = true →
      isOldStyleId X = false →
      ∀ e' ∈ (es.foldl (classify now g) st).new_events, e'.id = X →
      e' ∈ st.new_events := by
  induction es with
  | nil => intro st X _ _ e' h _; exact h
  | cons e t ih =>
    intro st X hc hold e' he' hid
    have hc' : containsKey (classify now g st e).ledger X = true :=
      (containsKey_iff _ _).mpr (classify_keys_superset now g st e X
        ((containsKey_iff _ _).mp hc) hold)
    rw [List.foldl_cons] at he'
    have hmem := ih _ X hc' hold e' he' hid
    by_cases heq : e' = e
    · subst heq
      have hs : is_synced st.ledger e' = true := by rw [is_synced, hid]; exact hc
      rw [classify_skip now g st e' hs] at hmem
      exact hmem
    · rcases classify_new_events_sub now g st e e' hmem with h2 | h2
      · exact h2
      · exact absurd h2 heq

lemma foldl_classify_checks_id_synced (now : Time) (g : Remote) (es : List Event) :
    ∀ (st : Phase1State) (X : String), containsKey st.ledger X = true →
      isOldStyleId X = false →
      ∀ e' ∈ (es.foldl (classify now g) st).checks, e'.id = X →
      e' ∈ st.checks := by
  induction es with
  | nil => intro st X _ _ e' h _; exact h
  | cons e t ih =>
    intro st X hc hold e' he' hid
    have hc' : containsKey (classify now g st e).ledger X = true :=
      (containsKey_iff _ _).mpr (classify_keys_superset now g st e X
        ((containsKey_iff _ _).mp hc) hold)
    rw [List.foldl_cons] at he'
    have hmem := ih _ X hc' hold e' he' hid
    by_cases heq : e' = e
    · subst heq
      have hs : is_synced st.ledger e' = true := by rw [is_synced, hid]; exact hc
      rw [classify_skip now g st e' hs] at hmem
      exact hmem
    · rcases classify_checks_sub now g st e e' hmem with h2 | h2
      · exact h2
      · exact absurd h2 heq

lemma classify_lookup_synced (now : Time) (g : Remote) (st : Phase1State) (e : Event)
    (X : String) (hc : containsKey st.ledger X = true) (hold : isOldStyleId X = false) :
    lookup (classify now g st e).ledger X = lookup st.ledger X := by
  unfold classify
  split
  · rfl
  next hs =>
    have hne : e.id ≠ X := by
      intro h
      apply hs
      rw [is_synced, h]
      exact hc
    split
    next k hf =>
      show lookup (update_event_id st.ledger k e.id e now) X = _
      obtain ⟨holdk, hck⟩ := find_matching_old_event_spec _ _ _ hf
      have hnek : X ≠ k := fun h => by rw [h, holdk] at hold; simp at hold
      unfold update_event_id
      rw [if_pos hck, lookup_eraseKey_ne _ _ _ hnek,
        lookup_insertKey_ne _ _ _ _ (Ne.symm hne)]
    next =>
      split
      · show lookup (mark_synced st.ledger e _ now) X = _
        unfold mark_synced
        rw [lookup_insertKey_ne _ _ _ _ (Ne.symm hne)]
      · rfl

lemma foldl_classify_lookup_synced (now : Time) (g : Remote) (es : List Event) :
    ∀ (st : Phase1State) (X : String), containsKey st.ledger X = true →
      isOldStyleId X = false →
      lookup ((es.foldl (classify now g) st)).ledger X = lookup st.ledger X := by
  induction es with
  | nil => intro st X _ _; rfl
  | cons e t ih =>
    intro st X hc hold
    rw [List.foldl_cons,
      ih _ X ((containsKey_iff _ _).mpr (classify_keys_superset now g st e X
        ((containsKey_iff _ _).mp hc) hold)) hold,
      classify_lookup_synced now g st e X hc hold]

lemma foldl_classify_createnew_not_inserted (now : Time) (g : Remote) (E : Event)
    (es : List Event) :
    ∀ st : Phase1State,
      isOldStyleId E.id = false →
      (∀ e' ∈ es, isOldStyleId e'.id = false) →
      (∀ e' ∈ es, e'.id = E.id → e' = E) →
      containsKey st.ledger E.id = false →
      find_matching_old_event st.ledger E = none →
      g.check_event_exists E = none →
      containsKey ((es.foldl (classify now g) st)).ledger E.id = false := by
  induction es with
  | nil => intro st _ _ _ hc _ _; exact hc
  | cons e t ih =>
    intro st holdE hws hid hc hfind hchk
    rw [List.foldl_cons]
    by_cases heq : e.id = E.id
    · have heE : e = E := hid e (List.mem_cons_self _ _) heq
      rw [heE, classify_createnew now g st E (by rw [is_synced]; exact hc) hfind hchk]
      exact ih _ holdE (fun x hx => hws x (List.mem_cons_of_mem _ hx))
        (fun x hx => hid x (List.mem_cons_of_mem _ hx)) hc hfind hchk
    · apply ih _ holdE (fun x hx => hws x (List.mem_cons_of_mem _ hx))
        (fun x hx => hid x (List.mem_cons_of_mem _ hx))
      · rw [containsKey_eq_false_iff] at hc ⊢
        intro hmem
        rcases classify_keys_sub now g st e E.id hmem with h | h
        · exact hc h
        · exact heq h.symm
      · apply find_matching_old_event_none_mono _ _ _ hfind
        intro kv hm holdkv
        exact classify_old_pair now g st e kv hm holdkv (hws e (List.mem_cons_self _ _))
      · exact hchk

/-! ### Claim theorems: duplicate collapse (C8) -/

/-- C8 counterexample: two identical snapshot events over an empty ledger are
BOTH classified — two `check_event_exists` calls and two `create_event` calls
are issued — because the ledger is only marked during the creation pass, after
classification. So when the first duplicate is CREATE_NEW, later duplicates
are not skipped. -/
theorem duplicates_both_processed_cex :
    ((sync_events 0
      { check_event_exists := fun _ => none,
        create_event := fun _ => some "g1",
        delete_response := fun _ => .ok }
      [Event.mk "outlook-d" "T" "S" "O", Event.mk "outlook-d" "T" "S" "O"]
      []).checks).length = 2
    ∧ ((sync_events 0
      { check_event_exists := fun _ => none,
        create_event := fun _ => some "g1",
        delete_response := fun _ => .ok }
      [Event.mk "outlook-d" "T" "S" "O", Event.mk "outlook-d" "T" "S" "O"]
      []).create_results).length = 2 := by
  decide

/-- C8 (amended): duplicates collapse only through the ledger: when a later
duplicate is reached with its stableId already a ledger key — which holds
whenever the first duplicate was classified ALREADY_SYNCED, MIGRATE or
RECONCILE_EXISTING — it is skipped as already synced: it lands in `skipped`,
adds no `check_event_exists` call and no `create_event` call. When the first
duplicate is classified CREATE_NEW, later duplicates are processed
independently in the same cycle. -/
theorem duplicate_collapse (now : Time) (g : Remote) (l0 : Ledger)
    (pre post : List Event) (e' : Event)
    (hold : isOldStyleId e'.id = false)
    (hk : containsKey (pre.foldl (classify now g) ⟨l0, [], [], [], []⟩).ledger e'.id = true)
    (he' : e' ∈ post) :
    e' ∈ (phase1 now g l0 (pre ++ post)).skipped
    ∧ (e' ∉ (pre.foldl (classify now g) ⟨l0, [], [], [], []⟩).checks →
        e' ∉ (phase1 now g l0 (pre ++ post)).checks)
    ∧ (e' ∉ (pre.foldl (classify now g) ⟨l0, [], [], [], []⟩).new_events →
        e' ∉ (phase1 now g l0 (pre ++ post)).new_events
        ∧ ∀ o, (e', o) ∉ (sync_events now g (pre ++ post) l0).create_results) := by
  have hph : phase1 now g l0 (pre ++ post) =
      post.foldl (classify now g) (pre.foldl (classify now g) ⟨l0, [], [], [], []⟩) := by
    unfold phase1
    rw [List.foldl_append]
  refine ⟨?_, ?_, ?_⟩
  · rw [hph]
    exact foldl_classify_skipped_synced now g post _ e'.id hk hold e' he' rfl
  · intro hnc hmem
    rw [hph] at hmem
    exact hnc (foldl_classify_checks_id_synced now g post _ e'.id hk hold e' hmem rfl)
  · intro hnn
    have h1 : e' ∉ (phase1 now g l0 (pre ++ post)).new_events := by
      intro hmem
      rw [hph] at hmem
      exact hnn (foldl_classify_new_events_id_synced now g post _ e'.id hk hold e' hmem rfl)
    refine ⟨h1, ?_⟩
    intro o hmem
    rw [sync_events_unfold] at hmem
    dsimp only at hmem
    rw [applyCreates_results] at hmem
    rcases List.mem_map.mp hmem with ⟨x, hx, hxe⟩
    have hxx : x = e' := congrArg Prod.fst hxe
    rw [hxx] at hx
    exact h1 hx

/-- Witness for C8 (amended): with the duplicate's id already in the ledger,
the second occurrence is skipped with no calls. -/
theorem duplicate_collapse_witness :
    (isOldStyleId (Event.mk "outlook-d" "T" "S" "O").id = false)
    ∧ ((Event.mk "outlook-d" "T" "S" "O") ∈
        (phase1 0
          { check_event_exists := fun _ => none,
            create_event := fun _ => some "g1",
            delete_response := fun _ => .ok }
          [("outlook-d", ({} : EventInfo))]
          ([Event.mk "outlook-d" "T" "S" "O"] ++ [Event.mk "outlook-d" "T" "S" "O"])).skipped
      ∧ (Event.mk "outlook-d" "T" "S" "O") ∉
        (phase1 0
          { check_event_exists := fun _ => none,
            create_event := fun _ => some "g1",
            delete_response := fun _ => .ok }
          [("outlook-d", ({} : EventInfo))]
          ([Event.mk "outlook-d" "T" "S" "O"] ++ [Event.mk "outlook-d" "T" "S" "O"])).checks) := by
  have h := duplicate_collapse 0
    { check_event_exists := fun _ => none,
      create_event := fun _ => some "g1",
      delete_response := fun _ => .ok }
    [("outlook-d", ({} : EventInfo))]
    [Event.mk "outlook-d" "T" "S" "O"] [Event.mk "outlook-d" "T" "S" "O"]
    (Event.mk "outlook-d" "T" "S" "O")
    (by decide) (by decide) (by decide)
  exact ⟨by decide, h.1, h.2.1 (by decide)⟩

/-! ### Claim theorems: create failure and retry (C4) -/

lemma phase1_createnew_mem (now : Time) (g : Remote) (l0 : Ledger)
    (pre post : List Event) (E : Event)
    (hsy : is_synced (pre.foldl (classify now g) ⟨l0, [], [], [], []⟩).ledger E = false)
    (hfind : find_matching_old_event
      (pre.foldl (classify now g) ⟨l0, [], [], [], []⟩).ledger E = none)
    (hchk : g.check_event_exists E = none) :
    E ∈ (phase1 now g l0 (pre ++ E :: post)).new_events := by
  unfold phase1
  rw [List.foldl_append, List.foldl_cons,
    classify_createnew now g _ E hsy hfind hchk]
  apply foldl_classify_new_events_mono
  simp

/-- C4: if `create_event` fails for an event E classified CREATE_NEW (at its
turn: not in the ledger, no legacy match, no remote match), then E is queued,
the creation loop still issues one recorded call per queued event (the cycle
continues, E's failure recorded), no ledger entry keyed by E's stableId exists
at the end of the cycle, and on a next cycle where E is again in the snapshot
with no ledger, legacy or remote match at its turn, E is classified CREATE_NEW
again and `create_event` is re-attempted. E's stableId is assumed unique to E
in each snapshot and snapshot ids are `unique_id`-shaped (never old-style). -/
theorem create_failure_retry (now now2 : Time) (g g2 : Remote) (l0 : Ledger)
    (pre post pre2 post2 : List Event) (E : Event)
    (hws : ∀ x ∈ pre ++ E :: post, isOldStyleId x.id = false)
    (hid : ∀ x ∈ pre ++ E :: post, x.id = E.id → x = E)
    (hcre : g.create_event E = none)
    (hsy : is_synced (pre.foldl (classify now g) ⟨l0, [], [], [], []⟩).ledger E = false)
    (hfind : find_matching_old_event
      (pre.foldl (classify now g) ⟨l0, [], [], [], []⟩).ledger E = none)
    (hchk : g.check_event_exists E = none)
    (hsy2 : is_synced (pre2.foldl (classify now2 g2)
      ⟨(sync_events now g (pre ++ E :: post) l0).ledger, [], [], [], []⟩).ledger E = false)
    (hfind2 : find_matching_old_event (pre2.foldl (classify now2 g2)
      ⟨(sync_events now g (pre ++ E :: post) l0).ledger, [], [], [], []⟩).ledger E = none)
    (hchk2 : g2.check_event_exists E = none) :
    E ∈ (sync_events now g (pre ++ E :: post) l0).new_events
    ∧ (E, none) ∈ (sync_events now g (pre ++ E :: post) l0).create_results
    ∧ (sync_events now g (pre ++ E :: post) l0).create_results =
        (sync_events now g (pre ++ E :: post) l0).new_events.map
          (fun x => (x, g.create_event x))
    ∧ containsKey (sync_events now g (pre ++ E :: post) l0).ledger E.id = false
    ∧ E ∈ (sync_events now2 g2 (pre2 ++ E :: post2)
        (sync_events now g (pre ++ E :: post) l0).ledger).new_events
    ∧ (E, g2.create_event E) ∈ (sync_events now2 g2 (pre2 ++ E :: post2)
        (sync_events now g (pre ++ E :: post) l0).ledger).create_results := by
  have hEmem : E ∈ (phase1 now g l0 (pre ++ E :: post)).new_events :=
    phase1_createnew_mem now g l0 pre post E hsy hfind hchk
  have holdE : isOldStyleId E.id = false :=
    hws E (List.mem_append_right _ (List.mem_cons_self _ _))
  have hne1 : E ∈ (sync_events now g (pre ++ E :: post) l0).new_events := by
    rw [sync_events_unfold]
    exact hEmem
  have hcr1 : (sync_events now g (pre ++ E :: post) l0).create_results =
      (sync_events now g (pre ++ E :: post) l0).new_events.map
        (fun x => (x, g.create_event x)) := by
    rw [sync_events_unfold]
    dsimp only
    exact applyCreates_results now g _ _
  have hEcr : (E, none) ∈ (sync_events now g (pre ++ E :: post) l0).create_results := by
    rw [hcr1]
    refine List.mem_map.mpr ⟨E, hne1, ?_⟩
    rw [hcre]
  have hph1abs : containsKey (phase1 now g l0 (pre ++ E :: post)).ledger E.id = false := by
    unfold phase1
    rw [List.foldl_append, List.foldl_cons,
      classify_createnew now g _ E hsy hfind hchk]
    apply foldl_classify_createnew_not_inserted now g E post _ holdE
      (fun x hx => hws x (List.mem_append_right _ (List.mem_cons_of_mem _ hx)))
      (fun x hx => hid x (List.mem_append_right _ (List.mem_cons_of_mem _ hx)))
    · show is_synced _ E = false
      exact hsy
    · exact hfind
    · exact hchk
  have hmidabs : containsKey (applyCreates now g
      (phase1 now g l0 (pre ++ E :: post)).ledger
      (phase1 now g l0 (pre ++ E :: post)).new_events).1 E.id = false := by
    rw [containsKey_eq_false_iff]
    apply foldl_createStep_not_inserted now g _ _ E.id
      ((containsKey_eq_false_iff _ _).mp hph1abs)
    intro x hx hxid
    rcases foldl_classify_new_events_sub now g _ _ x hx with h | h
    · exact absurd h (List.not_mem_nil x)
    · rw [hid x h hxid]
      exact hcre
  have habs : containsKey (sync_events now g (pre ++ E :: post) l0).ledger E.id = false := by
    rw [sync_events_unfold]
    dsimp only
    rw [deletePass_eq]
    exact foldl_deleteStep_absent g _ _ E.id hmidabs
  have hne2 : E ∈ (sync_events now2 g2 (pre2 ++ E :: post2)
      (sync_events now g (pre ++ E :: post) l0).ledger).new_events := by
    rw [sync_events_unfold now2 g2 (pre2 ++ E :: post2)]
    exact phase1_createnew_mem now2 g2 _ pre2 post2 E hsy2 hfind2 hchk2
  have hcr2 : (E, g2.create_event E) ∈ (sync_events now2 g2 (pre2 ++ E :: post2)
      (sync_events now g (pre ++ E :: post) l0).ledger).create_results := by
    rw [sync_events_unfold now2 g2 (pre2 ++ E :: post2)]
    dsimp only
    rw [applyCreates_results]
    refine List.mem_map.mpr ⟨E, ?_, rfl⟩
    rw [sync_events_unfold now2 g2 (pre2 ++ E :: post2)] at hne2
    exact hne2
  exact ⟨hne1, hEcr, hcr1, habs, hne2, hcr2⟩

/-- Witness for C4: one event, create fails, no ledger entry; the identical
next cycle classifies it CREATE_NEW again and re-calls create. -/
theorem create_failure_retry_witness :
    ((Event.mk "outlook-e" "T" "S" "O"), (none : Option String)) ∈
      (sync_events 0
        { check_event_exists := fun _ => none,
          create_event := fun _ => none,
          delete_response := fun _ => .ok }
        ([] ++ (Event.mk "outlook-e" "T" "S" "O") :: []) []).create_results
    ∧ containsKey (sync_events 0
        { check_event_exists := fun _ => none,
          create_event := fun _ => none,
          delete_response := fun _ => .ok }
        ([] ++ (Event.mk "outlook-e" "T" "S" "O") :: []) []).ledger "outlook-e" = false
    ∧ (Event.mk "outlook-e" "T" "S" "O") ∈
      (sync_events 1
        { check_event_exists := fun _ => none,
          create_event := fun _ => none,
          delete_response := fun _ => .ok }
        ([] ++ (Event.mk "outlook-e" "T" "S" "O") :: [])
        (sync_events 0
          { check_event_exists := fun _ => none,
            create_event := fun _ => none,
            delete_response := fun _ => .ok }
          ([] ++ (Event.mk "outlook-e" "T" "S" "O") :: []) []).ledger).new_events := by
  have h := create_failure_retry 0 1
    { check_event_exists := fun _ => none,
      create_event := fun _ => none,
      delete_response := fun _ => .ok }
    { check_event_exists := fun _ => none,
      create_event := fun _ => none,
      delete_response := fun _ => .ok }
    [] [] [] [] [] (Event.mk "outlook-e" "T" "S" "O")
    (by decide) (by decide) rfl (by decide) (by decide) rfl
    (by decide) (by decide) rfl
  exact ⟨h.2.1, h.2.2.2.1, h.2.2.2.2.1⟩

/-! ### Claim theorems: legacy migration (C6) -/

/-- C6: when an event e's turn in the classification pass finds no ledger
entry under e.id but a matching old-scheme entry under key k (same stripped
title, same stored event start time), the cycle migrates it: at the end of the
cycle e.id maps to the old entry's data with `synced_date`, `event_date` and
`title` updated — in particular the old `google_event_id` (remoteId) is
retained — the old key k is gone, (k, e) is recorded as a migration, and no
RemoteCalendar call concerns that event: e is never passed to
`check_event_exists` nor to `create_event`, and k never becomes a deletion
candidate. No other snapshot event before e shares e's id, and snapshot ids
are `unique_id`-shaped (never old-style). -/
theorem legacy_migration (now : Time) (g : Remote) (l0 : Ledger)
    (pre post : List Event) (e : Event) (k : String)
    (hws : ∀ x ∈ pre ++ e :: post, isOldStyleId x.id = false)
    (hpre : ∀ x ∈ pre, x.id ≠ e.id)
    (hsy : is_synced (pre.foldl (classify now g) ⟨l0, [], [], [], []⟩).ledger e = false)
    (hfind : find_matching_old_event
      (pre.foldl (classify now g) ⟨l0, [], [], [], []⟩).ledger e = some k) :
    lookup (sync_events now g (pre ++ e :: post) l0).ledger e.id
      = some { ((lookup (pre.foldl (classify now g) ⟨l0, [], [], [], []⟩).ledger k).getD {}) with
          synced_date := some (.valid now),
          event_date := some e.start_iso,
          title := some e.title }
    ∧ containsKey (sync_events now g (pre ++ e :: post) l0).ledger k = false
    ∧ (k, e) ∈ (sync_events now g (pre ++ e :: post) l0).migrations
    ∧ e ∉ (sync_events now g (pre ++ e :: post) l0).checks
    ∧ e ∉ (sync_events now g (pre ++ e :: post) l0).new_events
    ∧ (∀ o, (e, o) ∉ (sync_events now g (pre ++ e :: post) l0).create_results)
    ∧ k ∉ (sync_events now g (pre ++ e :: post) l0).candidates := by
  obtain ⟨holdk, hck⟩ := find_matching_old_event_spec _ _ _ hfind
  have holde : isOldStyleId e.id = false :=
    hws e (List.mem_append_right _ (List.mem_cons_self _ _))
  have hnek : e.id ≠ k := fun h => by rw [h, holdk] at holde; simp at holde
  have hph : phase1 now g l0 (pre ++ e :: post) =
      post.foldl (classify now g)
        (classify now g (pre.foldl (classify now g) ⟨l0, [], [], [], []⟩) e) := by
    unfold phase1
    rw [List.foldl_append, List.foldl_cons]
  have hcl := classify_migrate now g (pre.foldl (classify now g) ⟨l0, [], [], [], []⟩) e k hsy hfind
  have hupd : update_event_id (pre.foldl (classify now g) ⟨l0, [], [], [], []⟩).ledger k e.id e now
      = eraseKey (insertKey (pre.foldl (classify now g) ⟨l0, [], [], [], []⟩).ledger e.id
          { ((lookup (pre.foldl (classify now g) ⟨l0, [], [], [], []⟩).ledger k).getD {}) with
            synced_date := some (.valid now),
            event_date := some e.start_iso,
            title := some e.title }) k := by
    unfold update_event_id
    rw [if_pos hck]
  have hlook_e : lookup (update_event_id
      (pre.foldl (classify now g) ⟨l0, [], [], [], []⟩).ledger k e.id e now) e.id
      = some { ((lookup (pre.foldl (classify now g) ⟨l0, [], [], [], []⟩).ledger k).getD {}) with
          synced_date := some (.valid now),
          event_date := some e.start_iso,
          title := some e.title } := by
    rw [hupd, lookup_eraseKey_ne _ _ _ hnek, lookup_insertKey_self]
  have hcont_e : containsKey (update_event_id
      (pre.foldl (classify now g) ⟨l0, [], [], [], []⟩).ledger k e.id e now) e.id = true := by
    rw [← lookup_isSome, hlook_e]
    rfl
  have hcont_k : containsKey (update_event_id
      (pre.foldl (classify now g) ⟨l0, [], [], [], []⟩).ledger k e.id e now) k = false := by
    rw [hupd]
    exact containsKey_eraseKey_self _ k
  -- phase-1 facts
  have hph_look : lookup (phase1 now g l0 (pre ++ e :: post)).ledger e.id
      = some { ((lookup (pre.foldl (classify now g) ⟨l0, [], [], [], []⟩).ledger k).getD {}) with
          synced_date := some (.valid now),
          event_date := some e.start_iso,
          title := some e.title } := by
    rw [hph, hcl]
    rw [foldl_classify_lookup_synced now g post _ e.id hcont_e holde]
    exact hlook_e
  have hph_cont : containsKey (phase1 now g l0 (pre ++ e :: post)).ledger e.id = true := by
    rw [← lookup_isSome, hph_look]
    rfl
  have hph_k : containsKey (phase1 now g l0 (pre ++ e :: post)).ledger k = false := by
    rw [containsKey_eq_false_iff]
    intro hmem
    rw [hph, hcl] at hmem
    rcases foldl_classify_keys_sub now g post _ k hmem with h | h
    · exact (containsKey_eq_false_iff _ _).mp hcont_k h
    · rcases List.mem_map.mp h with ⟨x, hx, hxk⟩
      have := hws x (List.mem_append_right _ (List.mem_cons_of_mem _ hx))
      rw [hxk, holdk] at this
      exact absurd this (by simp)
  -- no snapshot event in new_events carries e.id
  have hnew_ne : ∀ x ∈ (phase1 now g l0 (pre ++ e :: post)).new_events, x.id ≠ e.id := by
    intro x hx hxid
    rw [hph] at hx
    have hx' := foldl_classify_new_events_id_synced now g post _ e.id
      (by rw [hcl]; exact hcont_e) holde x hx hxid
    rw [hcl] at hx'
    have hx'' := foldl_classify_new_events_sub now g pre _ x hx'
    rcases hx'' with h | h
    · exact absurd h (List.not_mem_nil x)
    · exact hpre x h hxid
  -- phase-2 facts
  have hmid_look : lookup (applyCreates now g (phase1 now g l0 (pre ++ e :: post)).ledger
      (phase1 now g l0 (pre ++ e :: post)).new_events).1 e.id
      = some { ((lookup (pre.foldl (classify now g) ⟨l0, [], [], [], []⟩).ledger k).getD {}) with
          synced_date := some (.valid now),
          event_date := some e.start_iso,
          title := some e.title } := by
    unfold applyCreates
    rw [foldl_createStep_lookup_ne now g _ _ e.id hnew_ne]
    exact hph_look
  have hmid_k : containsKey (applyCreates now g (phase1 now g l0 (pre ++ e :: post)).ledger
      (phase1 now g l0 (pre ++ e :: post)).new_events).1 k = false := by
    rw [containsKey_eq_false_iff]
    intro hmem
    rcases foldl_createStep_keys_sub now g _ _ k hmem with h | h
    · exact (containsKey_eq_false_iff _ _).mp hph_k h
    · rcases List.mem_map.mp h with ⟨x, hx, hxk⟩
      rcases foldl_classify_new_events_sub now g (pre ++ e :: post) ⟨l0, [], [], [], []⟩ x hx with h2 | h2
      · exact absurd h2 (List.not_mem_nil x)
      · have := hws x h2
        rw [hxk, holdk] at this
        exact absurd this (by simp)
  -- deletion-candidate facts
  have hidmem : e.id ∈ (pre ++ e :: post).map (fun x => x.id) :=
    List.mem_map.mpr ⟨e, List.mem_append_right _ (List.mem_cons_self _ _), rfl⟩
  refine ⟨?_, ?_, ?_, ?_, ?_, ?_, ?_⟩
  · -- final lookup at e.id
    rw [sync_events_unfold]
    dsimp only
    rw [deletePass_eq, foldl_deleteStep_lookup_not_mem]
    · exact hmid_look
    · intro hmemc
      have hpred := (List.mem_filter.mp hmemc).2
      have hin : ((pre ++ e :: post).map (fun x => x.id)).contains e.id = true :=
        List.elem_iff.mpr hidmem
      rw [hin] at hpred
      exact absurd hpred (by simp)
  · -- old key gone
    rw [sync_events_unfold]
    dsimp only
    rw [deletePass_eq]
    exact foldl_deleteStep_absent g _ _ k hmid_k
  · -- migration recorded
    rw [sync_events_unfold]
    dsimp only
    rw [hph, hcl]
    apply foldl_classify_migrations_mono
    simp
  · -- never checked
    rw [sync_events_unfold]
    dsimp only
    intro hmem
    rw [hph] at hmem
    have hx' := foldl_classify_checks_id_synced now g post _ e.id
      (by rw [hcl]; exact hcont_e) holde e hmem rfl
    rw [hcl] at hx'
    rcases foldl_classify_checks_sub now g pre _ e hx' with h | h
    · exact absurd h (List.not_mem_nil e)
    · exact hpre e h rfl
  · -- never queued for creation
    rw [sync_events_unfold]
    dsimp only
    intro hmem
    exact hnew_ne e hmem rfl
  · -- no create call for e
    intro o hmem
    rw [sync_events_unfold] at hmem
    dsimp only at hmem
    rw [applyCreates_results] at hmem
    rcases List.mem_map.mp hmem with ⟨x, hx, hxe⟩
    have hxx : x = e := congrArg Prod.fst hxe
    rw [hxx] at hx
    exact hnew_ne e hx rfl
  · -- old key never a deletion candidate
    rw [sync_events_unfold]
    dsimp only
    intro hmemc
    have hkm := List.mem_dedup.mp (List.mem_filter.mp hmemc).1
    exact (containsKey_eq_false_iff _ _).mp hmid_k hkm

/-- Witness for C6: an old-format entry `outlook--123` for "Standup" is
rekeyed under the new id with its google id retained, and triggers no remote
call. -/
theorem legacy_migration_witness :
    lookup (sync_events 7
      { check_event_exists := fun _ => none,
        create_event := fun _ => none,
        delete_response := fun _ => .ok }
      ([] ++ (Event.mk "outlook-new" "Standup" "2024-06-01T10:00:00" "") :: [])
      [("outlook--123",
        { synced_date := some (.valid 5)
          event_date := some "2024-06-01T10:00:00"
          title := some "Standup"
          google_event_id := some "g9" })]).ledger "outlook-new"
      = some
          { synced_date := some (.valid 7)
            event_date := some "2024-06-01T10:00:00"
            title := some "Standup"
            google_event_id := some "g9" }
    ∧ containsKey (sync_events 7
      { check_event_exists := fun _ => none,
        create_event := fun _ => none,
        delete_response := fun _ => .ok }
      ([] ++ (Event.mk "outlook-new" "Standup" "2024-06-01T10:00:00" "") :: [])
      [("outlook--123",
        { synced_date := some (.valid 5)
          event_date := some "2024-06-01T10:00:00"
          title := some "Standup"
          google_event_id := some "g9" })]).ledger "outlook--123" = false
    ∧ (Event.mk "outlook-new" "Standup" "2024-06-01T10:00:00" "") ∉
      (sync_events 7
      { check_event_exists := fun _ => none,
        create_event := fun _ => none,
        delete_response := fun _ => .ok }
      ([] ++ (Event.mk "outlook-new" "Standup" "2024-06-01T10:00:00" "") :: [])
      [("outlook--123",
        { synced_date := some (.valid 5)
          event_date := some "2024-06-01T10:00:00"
          title := some "Standup"
          google_event_id := some "g9" })]).checks
    ∧ "outlook--123" ∉ (sync_events 7
      { check_event_exists := fun _ => none,
        create_event := fun _ => none,
        delete_response := fun _ => .ok }
      ([] ++ (Event.mk "outlook-new" "Standup" "2024-06-01T10:00:00" "") :: [])
      [("outlook--123",
        { synced_date := some (.valid 5)
          event_date := some "2024-06-01T10:00:00"
          title := some "Standup"
          google_event_id := some "g9" })]).candidates := by
  have h := legacy_migration 7
    { check_event_exists := fun _ => none,
      create_event := fun _ => none,
      delete_response := fun _ => .ok }
    [("outlook--123",
      { synced_date := some (.valid 5)
        event_date := some "2024-06-01T10:00:00"
        title := some "Standup"
        google_event_id := some "g9" })]
    [] [] (Event.mk "outlook-new" "Standup" "2024-06-01T10:00:00" "") "outlook--123"
    (by decide) (by decide) (by decide) (by decide)
  exact ⟨h.1, h.2.1, h.2.2.2.1, h.2.2.2.2.2.2⟩

/-! ### Claim theorems: deletion pass (C5) -/

lemma foldl_deleteStep_outcome (g : Remote) (cs : List String) :
    ∀ (l : Ledger) (rs : List (String × Bool)), cs.Nodup → ∀ c ∈ cs,
      (∀ gid, ((lookup l c).getD {}).google_event_id = some gid →
        (delete_event (g.delete_response gid) = true →
          containsKey (cs.foldl (deleteStep g) (l, rs)).1 c = false)
        ∧ (delete_event (g.delete_response gid) = false →
          lookup (cs.foldl (deleteStep g) (l, rs)).1 c = lookup l c))
      ∧ (((lookup l c).getD {}).google_event_id = none →
        containsKey (cs.foldl (deleteStep g) (l, rs)).1 c = false) := by
  induction cs with
  | nil => intro l rs _ c hc; exact absurd hc (List.not_mem_nil c)
  | cons c0 t ih =>
    intro l rs hnd c hc
    obtain ⟨hni, hnd'⟩ := List.nodup_cons.mp hnd
    rw [List.foldl_cons]
    rcases List.mem_cons.mp hc with rfl | hc
    · constructor
      · intro gid hg
        constructor
        · intro hb
          rw [deleteStep_eq_some_true g (l, rs) c gid hg hb]
          exact foldl_deleteStep_absent g t _ c (containsKey_eraseKey_self l c)
        · intro hb
          rw [deleteStep_eq_some_false g (l, rs) c gid hg hb]
          exact foldl_deleteStep_lookup_not_mem g t _ c hni
      · intro hg
        rw [deleteStep_eq_none g (l, rs) c hg]
        exact foldl_deleteStep_absent g t _ c (containsKey_eraseKey_self l c)
    · have hne : c ≠ c0 := fun h => hni (h ▸ hc)
      have hstep1 : lookup (deleteStep g (l, rs) c0).1 c = lookup l c := by
        cases hg0 : ((lookup l c0).getD {}).google_event_id with
        | none =>
          rw [deleteStep_eq_none g (l, rs) c0 hg0]
          exact lookup_eraseKey_ne l c0 c hne
        | some gid0 =>
          cases hb0 : delete_event (g.delete_response gid0)
          · rw [deleteStep_eq_some_false g (l, rs) c0 gid0 hg0 hb0]
          · rw [deleteStep_eq_some_true g (l, rs) c0 gid0 hg0 hb0]
            exact lookup_eraseKey_ne l c0 c hne
      have hpair : deleteStep g (l, rs) c0 = ((deleteStep g (l, rs) c0).1, (deleteStep g (l, rs) c0).2) := rfl
      rw [hpair]
      have hih := ih (deleteStep g (l, rs) c0).1 (deleteStep g (l, rs) c0).2 hnd' c hc
      constructor
      · intro gid hg
        have hg' : ((lookup (deleteStep g (l, rs) c0).1 c).getD {}).google_event_id = some gid := by
          rw [hstep1]
          exact hg
        obtain ⟨h1, h2⟩ := (hih.1 gid hg')
        exact ⟨h1, fun hb => by rw [h2 hb, hstep1]⟩
      · intro hg
        apply hih.2
        rw [hstep1]
        exact hg

/-- C5: in every cycle the deletion-candidate set is exactly the (deduplicated)
keys of the ledger as it stands after classification and creation, minus the
snapshot's stableIds; for each candidate whose entry holds a google id exactly
one `delete_event` call with that id is recorded (candidates with no google
id trigger no remote call); an HTTP 404 counts as delete success; on success
the entry is removed, and on failure the entry is kept unchanged so it is
retried next cycle. -/
theorem deletion_pass_spec (now : Time) (g : Remote) (events : List Event) (l0 : Ledger) :
    (∀ k, k ∈ (sync_events now g events l0).candidates ↔
      (k ∈ keysOf (applyCreates now g (phase1 now g l0 events).ledger
        (phase1 now g l0 events).new_events).1 ∧ k ∉ events.map (fun e => e.id)))
    ∧ (sync_events now g events l0).candidates.Nodup
    ∧ (sync_events now g events l0).delete_calls =
        (sync_events now g events l0).candidates.filterMap (fun c =>
          ((lookup (applyCreates now g (phase1 now g l0 events).ledger
            (phase1 now g l0 events).new_events).1 c).getD {}).google_event_id.map
            (fun gid => (gid, delete_event (g.delete_response gid))))
    ∧ delete_event .notFound = true
    ∧ (∀ c ∈ (sync_events now g events l0).candidates,
        (∀ gid, ((lookup (applyCreates now g (phase1 now g l0 events).ledger
            (phase1 now g l0 events).new_events).1 c).getD {}).google_event_id = some gid →
          (delete_event (g.delete_response gid) = true →
            containsKey (sync_events now g events l0).ledger c = false)
          ∧ (delete_event (g.delete_response gid) = false →
            lookup (sync_events now g events l0).ledger c =
              lookup (applyCreates now g (phase1 now g l0 events).ledger
                (phase1 now g l0 events).new_events).1 c
            ∧ containsKey (sync_events now g events l0).ledger c = true))
        ∧ (((lookup (applyCreates now g (phase1 now g l0 events).ledger
            (phase1 now g l0 events).new_events).1 c).getD {}).google_event_id = none →
          containsKey (sync_events now g events l0).ledger c = false)) := by
  have hnd : ((keysOf (applyCreates now g (phase1 now g l0 events).ledger
      (phase1 now g l0 events).new_events).1).dedup.filter
        (fun k => !(events.map (fun e => e.id)).contains k)).Nodup :=
    (List.nodup_dedup _).filter _
  refine ⟨?_, ?_, ?_, rfl, ?_⟩
  · intro k
    rw [sync_events_unfold]
    dsimp only
    constructor
    · intro h
      obtain ⟨hd, hp⟩ := List.mem_filter.mp h
      refine ⟨List.mem_dedup.mp hd, ?_⟩
      intro hmem
      have hin : ((events.map (fun e => e.id)).contains k) = true := List.elem_iff.mpr hmem
      rw [hin] at hp
      exact absurd hp (by simp)
    · rintro ⟨hm, hnm⟩
      refine List.mem_filter.mpr ⟨List.mem_dedup.mpr hm, ?_⟩
      show (!(events.map (fun e => e.id)).contains k) = true
      have hcon : (events.map (fun e => e.id)).contains k = false := by
        rw [Bool.eq_false_iff]
        intro h
        exact hnm (List.elem_iff.mp h)
      rw [hcon]
      rfl
  · rw [sync_events_unfold]
    exact hnd
  · rw [sync_events_unfold]
    dsimp only
    rw [deletePass_eq, foldl_deleteStep_calls g _ _ hnd]
    simp
  · intro c hcm
    rw [sync_events_unfold] at hcm
    dsimp only at hcm
    have houtcome := foldl_deleteStep_outcome g _
      (applyCreates now g (phase1 now g l0 events).ledger
        (phase1 now g l0 events).new_events).1 [] hnd c hcm
    have hckeys : c ∈ keysOf (applyCreates now g (phase1 now g l0 events).ledger
        (phase1 now g l0 events).new_events).1 :=
      List.mem_dedup.mp (List.mem_filter.mp hcm).1
    constructor
    · intro gid hg
      obtain ⟨h1, h2⟩ := houtcome.1 gid hg
      constructor
      · intro hb
        rw [sync_events_unfold]
        dsimp only
        rw [deletePass_eq]
        exact h1 hb
      · intro hb
        have hlk : lookup (sync_events now g events l0).ledger c =
            lookup (applyCreates now g (phase1 now g l0 events).ledger
              (phase1 now g l0 events).new_events).1 c := by
          rw [sync_events_unfold]
          dsimp only
          rw [deletePass_eq]
          exact h2 hb
        refine ⟨hlk, ?_⟩
        rw [← lookup_isSome, hlk, lookup_isSome]
        exact (containsKey_iff _ _).mpr hckeys
    · intro hg
      rw [sync_events_unfold]
      dsimp only
      rw [deletePass_eq]
      exact houtcome.2 hg

/-- Witness for C5: one stale entry with a google id and one without; the
former is delete-called and removed, the latter removed with no call; a 404
delete reply counts as success. -/
theorem deletion_pass_spec_witness :
    ("stale1" ∈ (sync_events 0
      { check_event_exists := fun _ => none,
        create_event := fun _ => none,
        delete_response := fun _ => .notFound }
      [] [("stale1", { google_event_id := some "g1" }), ("stale2", {})]).candidates
    ∧ ((lookup (applyCreates 0
        { check_event_exists := fun _ => none,
          create_event := fun _ => none,
          delete_response := fun _ => .notFound }
        (phase1 0
          { check_event_exists := fun _ => none,
            create_event := fun _ => none,
            delete_response := fun _ => .notFound }
          [("stale1", { google_event_id := some "g1" }), ("stale2", {})] []).ledger
        (phase1 0
          { check_event_exists := fun _ => none,
            create_event := fun _ => none,
            delete_response := fun _ => .notFound }
          [("stale1", { google_event_id := some "g1" }), ("stale2", {})] []).new_events).1
        "stale1").getD {}).google_event_id = some "g1")
    ∧ containsKey (sync_events 0
      { check_event_exists := fun _ => none,
        create_event := fun _ => none,
        delete_response := fun _ => .notFound }
      [] [("stale1", { google_event_id := some "g1" }), ("stale2", {})]).ledger
      "stale1" = false
    ∧ (sync_events 0
      { check_event_exists := fun _ => none,
        create_event := fun _ => none,
        delete_response := fun _ => .notFound }
      [] [("stale1", { google_event_id := some "g1" }), ("stale2", {})]).delete_calls
      = [("g1", true)] := by
  have h := deletion_pass_spec 0
    { check_event_exists := fun _ => none,
      create_event := fun _ => none,
      delete_response := fun _ => .notFound }
    [] [("stale1", { google_event_id := some "g1" }), ("stale2", {})]
  refine ⟨⟨by decide, by decide⟩, ?_, by decide⟩
  exact ((h.2.2.2.2 "stale1" (by decide)).1 "g1" (by decide)).1 (by decide)

end Outlook2GCal
